import Mathlib

/-!
# udpping: a verification development

A shallow embedding of `main.go` of Xusser/udpping:

* `main`         : argument validation of `func main` (lines 52-94);
* `ClientState`, `clientStep`, `run` : the two goroutines of `func client`
  (receiver, lines 159-176; sender, lines 179-220) together with the
  cancellation context and a monotonic clock, as a labelled transition system
  whose labels are the choices of the environment (scheduler, network, clock);
* `report`       : the final report of `func client` (lines 229-235).
-/

namespace Udpping

/-! ## Machine integers and durations -/

/-- The constant math.MaxInt64. -/
def maxInt64 : Int := 9223372036854775807

/-- The constant math.MinInt64. -/
def minInt64 : Int := -9223372036854775808

/-- Reduction of an integer to the int64 it is stored as (two's complement). -/
def wrapInt64 (x : Int) : Int :=
  (x + 9223372036854775808) % 18446744073709551616 - 9223372036854775808

/-- The duration of line 190, in nanoseconds:
`time.Millisecond * time.Duration(pingInterval)`, an int64 product. -/
def intervalDuration (pingInterval : Int) : Int :=
  wrapInt64 (1000000 * pingInterval)

/-- The duration `time.Since(startTs)` read on a clock showing `now`:
the difference of the two readings, saturated to the int64 range. -/
def since (now startTs : Int) : Int :=
  if now - startTs > maxInt64 then maxInt64
  else if now - startTs < minInt64 then minInt64
  else now - startTs

/-! ## The client: state -/

/-- A datagram or payload: a sequence of bytes. -/
abbrev Bytes := List (Fin 256)

/-- The statistics variables of `client` (lines 135-139).  The two uint64
counters grow by one per cycle and are kept as natural numbers: a wrap of
`countTotal++`, after `2^64` cycles, is not modelled.  The three durations are
int64 nanoseconds. -/
structure Stats where
  countTotal : Nat
  countReceived : Nat
  rttSum : Int
  rttMin : Int
  rttMax : Int
deriving DecidableEq, Repr

/-- Values of the statistics variables when the goroutines start. -/
def initStats : Stats :=
  { countTotal := 0, countReceived := 0, rttSum := 0, rttMin := maxInt64, rttMax := 0 }

/-- Lines 208-216: the statistics update of a cycle whose reply matched,
`elapsed` being the value of `time.Since(startTs)`. -/
def recordReply (st : Stats) (elapsed : Int) : Stats :=
  { countTotal := st.countTotal
    countReceived := st.countReceived + 1
    rttSum := wrapInt64 (st.rttSum + elapsed)
    rttMax := if st.rttMax < elapsed then elapsed else st.rttMax
    rttMin := if st.rttMin > elapsed then elapsed else st.rttMin }

/-- Where the sender goroutine stands. -/
inductive SenderPc where
  /-- Head of the loop, before line 182. -/
  | top
  /-- Blocked in the select of line 192. -/
  | inSelect
  /-- Waiting for the deadline after a mismatch (line 201). -/
  | waitMismatch
  /-- Waiting for the deadline after a match (line 218). -/
  | waitMatch
  /-- Returned (line 194). -/
  | exited
deriving DecidableEq, Repr

/-- Where the receiver goroutine stands. -/
inductive ReceiverPc where
  /-- In `c.Read(buf)` (line 164). -/
  | reading
  /-- In `recvCh <- buf[:nr]` (line 174), with the `nr` of the last read. -/
  | sending (nr : Nat)
  /-- Returned (line 168). -/
  | exited
deriving DecidableEq, Repr

/-- The flags `client` reads. -/
structure Config where
  pingInterval : Int
  pingPktSize : Int
deriving DecidableEq, Repr

/-- State of `client` while its goroutines run.

`recvCh` is the channel of capacity one.  What line 174 puts in it is the slice
`buf[:nr]`, which shares the storage of the receiver's `buf`; the channel
therefore holds the length `nr`, and the bytes are those of `buf` when the
sender looks at them. -/
structure ClientState where
  stats : Stats
  /-- Reading of the monotonic clock, in nanoseconds. -/
  now : Int
  /-- Whether `stop()` has been called, i.e. `ctx.Done()` is closed. -/
  cancelled : Bool
  pc : SenderPc
  payload : Bytes
  startTs : Int
  deadline : Int
  rpc : ReceiverPc
  buf : Bytes
  recvCh : Option Nat
deriving DecidableEq, Repr

/-- State of `client` when the two goroutines are started, the clock showing `t0`. -/
def initClient (t0 : Int) : ClientState :=
  { stats := initStats, now := t0, cancelled := false, pc := .top, payload := [],
    startTs := 0, deadline := 0, rpc := .reading,
    buf := List.replicate 1500 0, recvCh := none }

/-- The value a receive from `recvCh` yields: the queued slice, read through
the receiver's buffer as it is now. -/
def chanValue (s : ClientState) : Option Bytes :=
  s.recvCh.map (fun nr => s.buf.take nr)

/-! ## The client: transitions -/

/-- The choices of the environment. -/
inductive Event where
  /-- The clock advances by `d` nanoseconds. -/
  | tick (d : Nat)
  /-- The main goroutine calls `stop()` (line 224). -/
  | stop
  /-- Lines 182-186: `c.Write` fails; the payload generated is dropped. -/
  | writeFail
  /-- Lines 182-190: `payload` is generated and `c.Write` succeeds. -/
  | writeOk (payload : Bytes)
  /-- Line 193: the select takes `ctx.Done()`. -/
  | selectDone
  /-- Line 195: the select takes the timer. -/
  | selectTimeout
  /-- Line 198: the select takes a value from `recvCh`. -/
  | selectRecv
  /-- Lines 201 and 218: the timer of the wait for the deadline fires. -/
  | deadlineWake
  /-- Line 164: `c.Read` returns a datagram. -/
  | read (datagram : Bytes)
  /-- Line 164: `c.Read` returns an error. -/
  | readErr
  /-- Line 174: the send on `recvCh` completes. -/
  | chanSend
deriving DecidableEq, Repr

/-- One step of `client`; `none` when the event cannot happen in the state.

The payload of line 182 comes from `utils.RandStringBytesMaskImprSrcUnsafe`,
which is outside this file of the repository: it is a choice of the
environment, of the configured length.  A timer `time.After(time.Until(deadline))`
can fire once the clock has reached `deadline`. -/
def clientStep (cfg : Config) (s : ClientState) : Event → Option ClientState
  | .tick d => some { s with now := s.now + d }
  | .stop => some { s with cancelled := true }
  | .writeFail =>
    if s.pc = .top then some s else none
  | .writeOk p =>
    if s.pc = .top ∧ (p.length : Int) = cfg.pingPktSize then
      some { s with
        stats := { s.stats with countTotal := s.stats.countTotal + 1 }
        payload := p
        startTs := s.now
        deadline := s.now + intervalDuration cfg.pingInterval
        pc := .inSelect }
    else none
  | .selectDone =>
    if s.pc = .inSelect ∧ s.cancelled = true then some { s with pc := .exited } else none
  | .selectTimeout =>
    if s.pc = .inSelect ∧ s.deadline ≤ s.now then some { s with pc := .top } else none
  | .selectRecv =>
    if s.pc = .inSelect then
      match chanValue s with
      | none => none
      | some b =>
        if b ≠ s.payload then
          some { s with recvCh := none, pc := .waitMismatch }
        else
          some { s with
            recvCh := none
            stats := recordReply s.stats (since s.now s.startTs)
            pc := .waitMatch }
    else none
  | .deadlineWake =>
    if (s.pc = .waitMismatch ∨ s.pc = .waitMatch) ∧ s.deadline ≤ s.now then
      some { s with pc := .top }
    else none
  | .read d =>
    if s.rpc = .reading then
      some { s with
        buf := d.take 1500 ++ s.buf.drop (d.take 1500).length
        rpc := .sending (d.take 1500).length }
    else none
  | .readErr =>
    if s.rpc = .reading then
      some (if s.cancelled = true then { s with rpc := .exited } else s)
    else none
  | .chanSend =>
    match s.rpc with
    | .sending nr =>
      if s.recvCh = none then some { s with recvCh := some nr, rpc := .reading } else none
    | _ => none

/-- A run of `client`: the events in order. -/
def run (cfg : Config) (s : ClientState) : List Event → Option ClientState
  | [] => some s
  | e :: es =>
    match clientStep cfg s e with
    | none => none
    | some s' => run cfg s' es

/-! ## Argument validation: `main` -/

/-- The flag variables of lines 26-31 after `flag.Parse()`. -/
structure Flags where
  pingInterval : Int
  pingPktSize : Int
  serverMode : Bool
  traceMode : Bool
deriving DecidableEq, Repr

/-- The flags when the command line sets none (lines 35-38). -/
def defaultFlags : Flags :=
  { pingInterval := 1000, pingPktSize := 64, serverMode := false, traceMode := false }

/-- Value of a decimal digit. -/
def digitValue (c : Char) : Option Nat :=
  if '0' ≤ c ∧ c ≤ '9' then some (c.toNat - '0'.toNat) else none

/-- Value of a sequence of decimal digits, continuing from `acc`. -/
def parseDigits : Nat → List Char → Option Nat
  | acc, [] => some acc
  | acc, c :: cs =>
    match digitValue c with
    | none => none
    | some d => parseDigits (10 * acc + d) cs

/-- The library function `strconv.Atoi` for a 64-bit `int`: the string is an
optional sign `+` or `-` followed by at least one decimal digit and nothing
else, and its value fits an int64; otherwise `none` (the error result). -/
def atoi (s : String) : Option Int :=
  let cs := s.toList
  let neg := cs.head? = some '-'
  let ds := if cs.head? = some '-' ∨ cs.head? = some '+' then cs.tail else cs
  if ds = [] then none
  else
    match parseDigits 0 ds with
    | none => none
    | some n =>
      let v : Int := if neg then -(n : Int) else (n : Int)
      if minInt64 ≤ v ∧ v ≤ maxInt64 then some v else none

/-- How `main` ends, or which role it enters. -/
inductive Outcome where
  /-- Line 74: `log.Fatalf`, the port argument is not an integer. -/
  | fatalPortParse (arg : String)
  /-- Line 76: `log.Fatalf`, the port is outside 1..65535. -/
  | fatalPortRange (port : Int)
  /-- Lines 85-87: the usage text is printed and `main` returns. -/
  | usage
  /-- Line 89: `log.Fatalf`, the ping interval is too small. -/
  | fatalInterval (pingInterval : Int)
  /-- Line 91: `log.Fatalf`, the packet size is out of range. -/
  | fatalSize (pingPktSize : Int)
  /-- Line 83: `server()` is entered with this host and port (line 93,
  `client()`, follows only if `server()` returns). -/
  | server (host : String) (port : Int)
  /-- Line 93: `client()` is entered with this host and port. -/
  | client (host : String) (port : Int)
deriving DecidableEq, Repr

/-- The message of the `log.Fatalf` call an outcome stands for, if it is one.
`log.Fatalf` logs the message and exits the process with status 1. -/
def Outcome.fatalMessage : Outcome → Option String
  | .fatalPortParse arg => some ("Invalid port value:" ++ arg)
  | .fatalPortRange port =>
    some ("Invalid port value:" ++ toString port ++ ", expected integer between 1 and 65535")
  | .fatalInterval i =>
    some ("Invalid ping interval:" ++ toString i ++ ", expected integer larger than 10")
  | .fatalSize n =>
    some ("Invalid packet size value:" ++ toString n ++ ", expected integer between 64 and 1500")
  | _ => none

/-- Whether the process ended in `log.Fatalf`. -/
def Outcome.isFatal (o : Outcome) : Bool := o.fatalMessage.isSome

/-- Whether the process ended in one of the two port errors of lines 74 and 76. -/
def Outcome.isPortFatal : Outcome → Bool
  | .fatalPortParse _ => true
  | .fatalPortRange _ => true
  | _ => false

/-- Whether `server()` or `client()` is entered. -/
def Outcome.entersNetwork : Outcome → Bool
  | .server _ _ => true
  | .client _ _ => true
  | _ => false

/-- The port `server()` or `client()` is entered with. -/
def Outcome.port? : Outcome → Option Int
  | .server _ p => some p
  | .client _ p => some p
  | _ => none

/-- Lines 60-94 of `main`, `args` being `flag.Args()`. -/
def main (f : Flags) (args : List String) : Outcome :=
  let host := match args with
    | arg :: _ => arg
    | [] => "0.0.0.0"
  let checked : Except Outcome Int := match args with
    | _ :: arg :: _ =>
      match atoi arg with
      | none => .error (.fatalPortParse arg)
      | some port =>
        if port < 1 ∨ port > 65535 then .error (.fatalPortRange port) else .ok port
    | _ => .ok 5555
  match checked with
  | .error o => o
  | .ok port =>
    if f.serverMode then .server host port
    else if args.length ≤ 0 then .usage
    else if f.pingInterval < 10 then .fatalInterval f.pingInterval
    else if f.pingPktSize < 64 ∨ f.pingPktSize > 1500 then .fatalSize f.pingPktSize
    else .client host port

/-! ## Notions the properties are stated with -/

/-- The event is the select of line 192 taking from `recvCh` a value whose
bytes equal the payload of the cycle (line 199, the `else` branch). -/
def matchedReply (s : ClientState) (e : Event) : Prop :=
  e = .selectRecv ∧ s.pc = .inSelect ∧ chanValue s = some s.payload

instance (s : ClientState) (e : Event) : Decidable (matchedReply s e) :=
  inferInstanceAs (Decidable (e = .selectRecv ∧ s.pc = .inSelect ∧ chanValue s = some s.payload))

/-- Number of cycles a run begins with a successful write (lines 183-190). -/
def cyclesBegun : List Event → Nat
  | [] => 0
  | .writeOk _ :: es => cyclesBegun es + 1
  | _ :: es => cyclesBegun es

/-- Number of cycles begun with a successful write that are over when the run
`evs` has led to state `s`: all of them when the sender is back at the head of
its loop, all but the last one when it is still inside a cycle or has returned
from the select of one. -/
def cyclesCompleted (evs : List Event) (s : ClientState) : Nat :=
  if s.pc = .top then cyclesBegun evs else cyclesBegun evs - 1

/-- Number of cycles of a run that ended with a failed write (SendError). -/
def sendErrors : List Event → Nat
  | [] => 0
  | .writeFail :: es => sendErrors es + 1
  | _ :: es => sendErrors es

/-- The statistics after the matched replies with the given elapsed times, in
order, starting from the initial values of lines 135-139. -/
def recordAll (elapsed : List Int) : Stats :=
  elapsed.foldl recordReply initStats

/-! ## The final report -/

/-- A float64: not a number, an infinity, or the finite value
`(-1)^neg * man * 2^exp`.  Rounding is to nearest, ties to even, with a
significand of 53 bits; overflow to infinity and gradual underflow are not
modelled (they need magnitudes the counters and durations of the report, below
`2^64` and divided by at most `2^64 * 10^6`, do not reach). -/
inductive F64 where
  | nan
  | inf (neg : Bool)
  | fin (neg : Bool) (man : Nat) (exp : Int)
deriving DecidableEq, Repr

/-- Numerator and denominator of `n / (d * 2^e)`. -/
def scaleDiv (n d : Nat) (e : Int) : Nat × Nat :=
  if e < 0 then (n * 2 ^ (-e).toNat, d) else (n, d * 2 ^ e.toNat)

/-- The integer nearest to `num / den`, a tie going to the even one. -/
def roundHalfEven (num den : Nat) : Nat :=
  if 2 * (num % den) > den ∨ (2 * (num % den) = den ∧ (num / den) % 2 = 1) then num / den + 1
  else num / den

/-- With enough fuel, the position of the leading binary digit of `n`. -/
def floorLog2Fuel : Nat → Nat → Nat
  | 0, _ => 0
  | fuel + 1, n => if n ≥ 2 then floorLog2Fuel fuel (n / 2) + 1 else 0

/-- The position of the leading binary digit of `n`: for `n` positive,
`2 ^ floorLog2 n ≤ n < 2 ^ (floorLog2 n + 1)`. -/
def floorLog2 (n : Nat) : Nat := floorLog2Fuel n n

/-- The float64 nearest to `n / d`, for `n` and `d` positive: a significand
between `2^52` and `2^53` and its exponent. -/
def roundRatio (n d : Nat) : Nat × Int :=
  let e0 : Int := (floorLog2 n : Int) - (floorLog2 d : Int) - 53
  let e : Int := if (scaleDiv n d e0).1 / (scaleDiv n d e0).2 ≥ 2 ^ 53 then e0 + 1 else e0
  (roundHalfEven (scaleDiv n d e).1 (scaleDiv n d e).2, e)

/-- The conversion `float64(n)` of an unsigned integer. -/
def F64.ofNat (n : Nat) : F64 :=
  if n = 0 then .fin false 0 0 else .fin false (roundRatio n 1).1 (roundRatio n 1).2

/-- The conversion `float64(i)` of a signed integer. -/
def F64.ofInt (i : Int) : F64 :=
  if i = 0 then .fin false 0 0
  else .fin (decide (i < 0)) (roundRatio i.natAbs 1).1 (roundRatio i.natAbs 1).2

/-- The float64 quotient `x / y`. -/
def F64.div : F64 → F64 → F64
  | .fin s1 m1 e1, .fin s2 m2 e2 =>
    if m2 = 0 then (if m1 = 0 then .nan else .inf (xor s1 s2))
    else if m1 = 0 then .fin (xor s1 s2) 0 0
    else .fin (xor s1 s2) (roundRatio m1 m2).1 ((roundRatio m1 m2).2 + e1 - e2)
  | .inf s1, .fin s2 _ _ => .inf (xor s1 s2)
  | .fin s1 _ _, .inf s2 => .fin (xor s1 s2) 0 0
  | _, _ => .nan

/-- The float64 product `x * y`. -/
def F64.mul : F64 → F64 → F64
  | .fin s1 m1 e1, .fin s2 m2 e2 =>
    if m1 * m2 = 0 then .fin (xor s1 s2) 0 0
    else .fin (xor s1 s2) (roundRatio (m1 * m2) 1).1 ((roundRatio (m1 * m2) 1).2 + e1 + e2)
  | .inf s1, .inf s2 => .inf (xor s1 s2)
  | .inf s1, .fin s2 m2 _ => if m2 = 0 then .nan else .inf (xor s1 s2)
  | .fin s1 m1 _, .inf s2 => if m1 = 0 then .nan else .inf (xor s1 s2)
  | _, _ => .nan

/-- The value times one hundred, rounded to an integer (ties to even): the
digits the verb `%.2f` prints for a finite value. -/
def hundredths (man : Nat) (exp : Int) : Nat :=
  roundHalfEven (scaleDiv (100 * man) 1 (-exp)).1 (scaleDiv (100 * man) 1 (-exp)).2

/-- The text the verb `%.2f` prints. -/
def F64.format2 : F64 → String
  | .nan => "NaN"
  | .inf neg => if neg then "-Inf" else "+Inf"
  | .fin neg man exp =>
    (if neg then "-" else "") ++ toString (hundredths man exp / 100) ++ "."
      ++ toString (hundredths man exp % 100 / 10) ++ toString (hundredths man exp % 10)

/-- The rational number a finite float64 stands for (0 for the others). -/
def F64.toRat : F64 → ℚ
  | .fin neg man exp => (if neg then -1 else 1) * (man : ℚ) * (2 : ℚ) ^ exp
  | _ => 0

/-- A finite float64 that is positive. -/
def F64.isPos : F64 → Prop
  | .fin neg man _ => neg = false ∧ 0 < man
  | _ => False

/-- The estimate `xh` of `x` lies between `lo * x` and `hi * x`. -/
def within (lo hi xh x : ℚ) : Prop := lo * x ≤ xh ∧ xh ≤ hi * x

/-- The unit roundoff of float64, `2^-53`. -/
def unitRoundoff : ℚ := 1 / 9007199254740992

/-- The uint64 difference `a - b`. -/
def sub64 (a b : Nat) : Nat :=
  (((a : Int) - (b : Int)) % 18446744073709551616).toNat

/-- The loss percentage of line 229:
`float64(countTotal-countReceived)/float64(countTotal)*100.0`. -/
def lossPercent (st : Stats) : F64 :=
  F64.mul (F64.div (F64.ofNat (sub64 st.countTotal st.countReceived)) (F64.ofNat st.countTotal))
    (F64.ofNat 100)

/-- A duration in milliseconds, as lines 232 and 234 compute it:
`float64(d.Nanoseconds())/1000/1000`. -/
def millis (d : Int) : F64 :=
  F64.div (F64.div (F64.ofInt d) (F64.ofNat 1000)) (F64.ofNat 1000)

/-- The message of line 229. -/
def lossLine (st : Stats) : String :=
  toString st.countTotal ++ " packets transmitted, " ++ toString st.countReceived
    ++ " received, " ++ (lossPercent st).format2 ++ "% packet loss"

/-- The message of lines 231-234. -/
def rttLine (st : Stats) : String :=
  "rtt min/avg/max = " ++ (millis st.rttMin).format2 ++ "/"
    ++ (F64.div (F64.div (F64.div (F64.ofInt st.rttSum) (F64.ofNat st.countReceived))
          (F64.ofNat 1000)) (F64.ofNat 1000)).format2
    ++ "/" ++ (millis st.rttMax).format2

/-- Lines 229-235: the messages logged at shutdown, in order. -/
def report (st : Stats) : List String :=
  if st.countReceived > 0 then [lossLine st, rttLine st] else [lossLine st]

/-! ## Invariants of the client -/

/-- Counters: no more replies than packets sent, and strictly fewer while the
sender is in the select of a cycle. -/
def countInv (s : ClientState) : Prop :=
  s.stats.countReceived ≤ s.stats.countTotal ∧
    (s.pc = .inSelect → s.stats.countReceived < s.stats.countTotal)

/-- Clock: it never runs behind `T`.  `B` is the time at which every cycle
begun so far is due to be over: back at the head of the loop the clock has
reached `B`; otherwise it has reached `B - D`, and a cycle under way started no
sooner than `B - D` and has its deadline at its start plus `D`. -/
def cadenceInv (D T B : Int) (s : ClientState) : Prop :=
  T ≤ s.now ∧
  (s.pc = .top → B ≤ s.now) ∧
  (s.pc ≠ .top → B - D ≤ s.now) ∧
  (s.pc = .inSelect ∨ s.pc = .waitMismatch ∨ s.pc = .waitMatch →
    B - D ≤ s.startTs ∧ s.deadline = s.startTs + D)

/-! ## Sample inputs -/

/-- The configuration of a client started with the default flags. -/
def defaultConfig : Config := { pingInterval := 1000, pingPktSize := 64 }

/-- The configuration of a client started with `-i 10`, the smallest interval
`main` accepts. -/
def minIntervalConfig : Config := { pingInterval := 10, pingPktSize := 64 }

/-- A payload of 64 bytes, all `A`. -/
def payloadA : Bytes := List.replicate 64 65

/-- A payload of 64 bytes, all `B`. -/
def payloadB : Bytes := List.replicate 64 66

/-- Final statistics of a run with three packets sent and two replies, of 1 ms
and 2 ms. -/
def threeSentTwoReceived : Stats :=
  { countTotal := 3, countReceived := 2, rttSum := 3000000, rttMin := 1000000, rttMax := 2000000 }

/-- Final statistics of a run with five packets sent and no reply. -/
def fiveSentNoneReceived : Stats :=
  { countTotal := 5, countReceived := 0, rttSum := 0, rttMin := maxInt64, rttMax := 0 }

/-- A run of two cycles at the default interval: a timeout, then a reply taken
5 ms after the write and the wait for the deadline. -/
def timeoutThenMatch : List Event :=
  [.writeOk payloadA, .tick 1000000000, .selectTimeout,
   .writeOk payloadB, .tick 5000000, .read payloadB, .chanSend, .selectRecv,
   .tick 995000000, .deadlineWake]

/-- The client after the run `timeoutThenMatch` from time 0. -/
def afterTimeoutThenMatch : ClientState :=
  { initClient 0 with
    stats := { countTotal := 2, countReceived := 1, rttSum := 5000000, rttMin := 5000000,
               rttMax := 5000000 }
    now := 2000000000
    payload := payloadB
    startTs := 1000000000
    deadline := 2000000000
    buf := payloadB ++ List.replicate 1436 0 }

/-- The client after `payloadA` was sent at time 0 and `stop()` was called. -/
def stoppedInSelect : ClientState :=
  { initClient 0 with
    stats := { initStats with countTotal := 1 }
    cancelled := true
    pc := .inSelect
    payload := payloadA
    deadline := 1000000000 }

/-- The client after `payloadA` was sent at time 0 and its echo was read and
queued in `recvCh`. -/
def replyQueued : ClientState :=
  { initClient 0 with
    stats := { initStats with countTotal := 1 }
    pc := .inSelect
    payload := payloadA
    deadline := 1000000000
    buf := payloadA ++ List.replicate 1436 0
    recvCh := some 64 }

/-! # Theorems -/

/-! ## General lemmas -/

/-- An integer of the int64 range is stored unchanged. -/
theorem wrapInt64_of_range (x : Int) (h0 : minInt64 ≤ x) (h1 : x ≤ maxInt64) : wrapInt64 x = x := by
  unfold wrapInt64
  unfold minInt64 at h0
  unfold maxInt64 at h1
  omega

/-- The uint64 difference of `a ≥ b` is the difference. -/
theorem sub64_of_le (a b : Nat) (h : b ≤ a) (ha : a < 18446744073709551616) :
    sub64 a b = a - b := by
  unfold sub64
  have h1 : ((a : Int) - (b : Int)) % 18446744073709551616 = ((a - b : Nat) : Int) := by
    omega
  rw [h1]
  simp

/-- The statistics after a step: one reply recorded, or one more packet sent, or
no change. -/
theorem clientStep_stats (cfg : Config) (s : ClientState) (e : Event) (s' : ClientState)
    (h : clientStep cfg s e = some s') :
    (matchedReply s e ∧ s'.stats = recordReply s.stats (since s.now s.startTs)) ∨
    (¬ matchedReply s e ∧ s.pc = .top ∧ (∃ p, e = .writeOk p) ∧
        s'.stats = { s.stats with countTotal := s.stats.countTotal + 1 }) ∨
    (¬ matchedReply s e ∧ (∀ p, e ≠ .writeOk p) ∧ s'.stats = s.stats) := by
  cases e <;> simp only [clientStep] at h
  case tick d => cases h; exact Or.inr (Or.inr ⟨by simp [matchedReply], by simp, rfl⟩)
  case stop => cases h; exact Or.inr (Or.inr ⟨by simp [matchedReply], by simp, rfl⟩)
  case writeFail =>
    split_ifs at h with hp
    cases h; exact Or.inr (Or.inr ⟨by simp [matchedReply], by simp, rfl⟩)
  case writeOk p =>
    split_ifs at h with hp
    cases h
    exact Or.inr (Or.inl ⟨by simp [matchedReply], hp.1, ⟨p, rfl⟩, rfl⟩)
  case selectDone =>
    split_ifs at h with hp
    cases h; exact Or.inr (Or.inr ⟨by simp [matchedReply], by simp, rfl⟩)
  case selectTimeout =>
    split_ifs at h with hp
    cases h; exact Or.inr (Or.inr ⟨by simp [matchedReply], by simp, rfl⟩)
  case selectRecv =>
    split_ifs at h with hp
    cases hv : chanValue s with
    | none => simp [hv] at h
    | some b =>
      simp only [hv] at h
      split_ifs at h with hb
      · cases h
        refine Or.inr (Or.inr ⟨?_, by simp, rfl⟩)
        rintro ⟨-, -, h3⟩
        rw [hv] at h3
        exact hb (Option.some.inj h3)
      · cases h
        have hb' : b = s.payload := not_not.mp hb
        exact Or.inl ⟨⟨rfl, hp, by rw [hv, hb']⟩, rfl⟩
  case deadlineWake =>
    split_ifs at h with hp
    cases h; exact Or.inr (Or.inr ⟨by simp [matchedReply], by simp, rfl⟩)
  case read d =>
    split_ifs at h with hp
    cases h; exact Or.inr (Or.inr ⟨by simp [matchedReply], by simp, rfl⟩)
  case readErr =>
    split_ifs at h with hp hc
    · cases h; exact Or.inr (Or.inr ⟨by simp [matchedReply], by simp, rfl⟩)
    · cases h; exact Or.inr (Or.inr ⟨by simp [matchedReply], by simp, rfl⟩)
  case chanSend =>
    cases hr : s.rpc with
    | sending nr =>
      simp only [hr] at h
      split_ifs at h with hc
      cases h; exact Or.inr (Or.inr ⟨by simp [matchedReply], by simp, rfl⟩)
    | reading => simp [hr] at h
    | exited => simp [hr] at h

/-- Once the sender has returned, a step leaves it returned and its statistics unchanged. -/
theorem clientStep_exited (cfg : Config) (s : ClientState) (e : Event) (s' : ClientState)
    (hpc : s.pc = .exited) (h : clientStep cfg s e = some s') :
    s'.pc = .exited ∧ s'.stats = s.stats := by
  cases e <;> simp only [clientStep] at h
  case tick d => cases h; exact ⟨hpc, rfl⟩
  case stop => cases h; exact ⟨hpc, rfl⟩
  case writeFail => simp [hpc] at h
  case writeOk p => simp [hpc] at h
  case selectDone => simp [hpc] at h
  case selectTimeout => simp [hpc] at h
  case selectRecv => simp [hpc] at h
  case deadlineWake => simp [hpc] at h
  case read d =>
    split_ifs at h with hp
    cases h; exact ⟨hpc, rfl⟩
  case readErr =>
    split_ifs at h with hp hc
    · cases h; exact ⟨hpc, rfl⟩
    · cases h; exact ⟨hpc, rfl⟩
  case chanSend =>
    cases hr : s.rpc with
    | sending nr =>
      simp only [hr] at h
      split_ifs at h with hc
      cases h; exact ⟨hpc, rfl⟩
    | reading => simp [hr] at h
    | exited => simp [hr] at h


/-- A property every step preserves holds at the end of every run. -/
theorem run_preserves (cfg : Config) (P : ClientState → Prop)
    (hstep : ∀ s e s', P s → clientStep cfg s e = some s' → P s') :
    ∀ (evs : List Event) (s s' : ClientState), P s → run cfg s evs = some s' → P s' := by
  intro evs
  induction evs with
  | nil =>
    intro s s' hs h
    simp [run] at h
    exact h ▸ hs
  | cons e es ih =>
    intro s s' hs h
    simp only [run] at h
    cases hc : clientStep cfg s e with
    | none => simp [hc] at h
    | some s1 =>
      simp only [hc] at h
      exact ih s1 s' (hstep s e s1 hs hc) h

/-- Every step preserves the invariant of the counters. -/
theorem countInv_step (cfg : Config) (s : ClientState) (e : Event) (s' : ClientState)
    (hs : countInv s) (h : clientStep cfg s e = some s') : countInv s' := by
  obtain ⟨h1, h2⟩ := hs
  cases e <;> simp only [clientStep] at h
  case tick d => cases h; exact ⟨h1, h2⟩
  case stop => cases h; exact ⟨h1, h2⟩
  case writeFail =>
    split_ifs at h with hp
    cases h; exact ⟨h1, h2⟩
  case writeOk p =>
    split_ifs at h with hp
    cases h
    refine ⟨?_, fun _ => ?_⟩ <;> simp <;> omega
  case selectDone =>
    split_ifs at h with hp
    cases h
    exact ⟨h1, by simp⟩
  case selectTimeout =>
    split_ifs at h with hp
    cases h
    exact ⟨h1, by simp⟩
  case selectRecv =>
    split_ifs at h with hp
    cases hv : chanValue s with
    | none => simp [hv] at h
    | some b =>
      simp only [hv] at h
      split_ifs at h with hb
      · cases h; exact ⟨h1, by simp⟩
      · cases h
        have := h2 hp
        refine ⟨?_, by simp⟩
        simp [recordReply]; omega
  case deadlineWake =>
    split_ifs at h with hp
    cases h
    exact ⟨h1, by simp⟩
  case read d =>
    split_ifs at h with hp
    cases h; exact ⟨h1, h2⟩
  case readErr =>
    split_ifs at h with hp hc
    · cases h; exact ⟨h1, h2⟩
    · cases h; exact ⟨h1, h2⟩
  case chanSend =>
    cases hr : s.rpc with
    | sending nr =>
      simp only [hr] at h
      split_ifs at h with hc
      cases h; exact ⟨h1, h2⟩
    | reading => simp [hr] at h
    | exited => simp [hr] at h

/-- C1: in every state reachable from the initial state of the client (both
counters zero) by any sequence of steps (write success or failure, timeout,
matching or mismatching reply, cancellation, clock and receiver steps),
`countReceived ≤ countTotal`; the uint64 difference `countTotal - countReceived`
of the final report (`sub64`) is therefore the true difference, it does not
wrap. -/
theorem countReceived_le_countTotal (cfg : Config) (t0 : Int) (evs : List Event)
    (s : ClientState) (h : run cfg (initClient t0) evs = some s) :
    s.stats.countReceived ≤ s.stats.countTotal ∧
    (s.stats.countTotal < 18446744073709551616 →
      sub64 s.stats.countTotal s.stats.countReceived
        = s.stats.countTotal - s.stats.countReceived) := by
  have hle : s.stats.countReceived ≤ s.stats.countTotal :=
    (run_preserves cfg countInv (countInv_step cfg) evs (initClient t0) s
      ⟨Nat.le_refl 0, fun hpc => nomatch hpc⟩ h).1
  exact ⟨hle, fun h64 => sub64_of_le _ _ hle h64⟩

/-- Witness of C1: a run with one matched reply. -/
theorem countReceived_le_countTotal_witness :
    ∃ s, run defaultConfig (initClient 0)
        [.writeOk payloadA, .read payloadA, .chanSend, .selectRecv]
        = some s ∧ s.stats.countReceived ≤ s.stats.countTotal := by
  cases h : run defaultConfig (initClient 0)
      [.writeOk payloadA, .read payloadA, .chanSend, .selectRecv] with
  | none => exact absurd h (by decide)
  | some s => exact ⟨s, rfl, (countReceived_le_countTotal _ _ _ s h).1⟩


/-! ### C2: a failed write -/

/-- Counterexample to C2 as stated: from the initial state a failed write leaves
`countTotal` at 0; it does not become 1. -/
theorem writeFail_counted_counterexample :
    (clientStep defaultConfig (initClient 0) .writeFail).map (fun s => s.stats.countTotal) = some 0 ∧
    (clientStep defaultConfig (initClient 0) .writeFail).map (fun s => s.stats.countTotal)
      ≠ some ((initClient 0).stats.countTotal + 1) := by
  constructor <;> decide

/-- C2, amended: in a cycle whose write fails neither `countTotal` nor
`countReceived` changes; the sender is back at the head of its loop at once, the
clock unchanged (lines 184-187 `continue` before `countTotal++`). -/
theorem writeFail_not_counted (cfg : Config) (s s' : ClientState)
    (h : clientStep cfg s .writeFail = some s') :
    s'.stats.countTotal = s.stats.countTotal ∧
    s'.stats.countReceived = s.stats.countReceived ∧
    s'.pc = .top ∧ s'.now = s.now := by
  simp only [clientStep] at h
  split_ifs at h with hp
  cases h
  exact ⟨rfl, rfl, hp, rfl⟩

/-- Witness of C2, amended: a failed write in the initial state. -/
theorem writeFail_not_counted_witness :
    clientStep defaultConfig (initClient 0) .writeFail = some (initClient 0) ∧
    (initClient 0).stats.countTotal = (initClient 0).stats.countTotal ∧
    (initClient 0).stats.countReceived = (initClient 0).stats.countReceived ∧
    (initClient 0).pc = .top ∧ (initClient 0).now = (initClient 0).now :=
  ⟨rfl, writeFail_not_counted defaultConfig (initClient 0) (initClient 0) rfl⟩

/-! ### C4: cancellation -/

/-- Once the sender has returned, a run leaves it returned and its statistics unchanged. -/
theorem run_exited (cfg : Config) (evs : List Event) :
    ∀ (s s' : ClientState), s.pc = .exited → run cfg s evs = some s' →
      s'.pc = .exited ∧ s'.stats = s.stats := by
  induction evs with
  | nil =>
    intro s s' hpc h
    simp [run] at h
    subst h
    exact ⟨hpc, rfl⟩
  | cons e es ih =>
    intro s s' hpc h
    simp only [run] at h
    cases hc : clientStep cfg s e with
    | none => simp [hc] at h
    | some s1 =>
      simp only [hc] at h
      obtain ⟨h1, h2⟩ := clientStep_exited cfg s e s1 hpc hc
      obtain ⟨h3, h4⟩ := ih s1 s' h1 h
      exact ⟨h3, h4.trans h2⟩

/-- Counterexample to C4 as stated: `stop()` is called while the sender waits for
the deadline after a match (`countTotal` is 1); the sender then wakes, writes
the next payload and `countTotal` becomes 2. -/
theorem stats_change_after_cancel_counterexample :
    (run defaultConfig (initClient 0)
        [.writeOk payloadA, .read payloadA, .chanSend, .selectRecv,
         .stop]).map (fun s => (s.cancelled, s.pc, s.stats.countTotal))
      = some (true, .waitMatch, 1) ∧
    (run defaultConfig (initClient 0)
        [.writeOk payloadA, .read payloadA, .chanSend, .selectRecv,
         .stop, .tick 1000000000, .deadlineWake, .writeOk payloadB]).map
        (fun s => (s.cancelled, s.pc, s.stats.countTotal))
      = some (true, .inSelect, 2) := by
  constructor <;> decide

/-- C4, amended: when the select of the sender takes the cancellation case, which
it can only once `stop()` has been called, the sender returns, and none of the
statistics changes in that step or in any later step of the run. -/
theorem stats_frozen_after_selectDone (cfg : Config) (s s1 s2 : ClientState) (evs : List Event)
    (h1 : clientStep cfg s .selectDone = some s1) (h2 : run cfg s1 evs = some s2) :
    s.cancelled = true ∧ s1.stats = s.stats ∧ s2.stats = s.stats ∧ s2.pc = .exited := by
  simp only [clientStep] at h1
  split_ifs at h1 with hp
  cases h1
  obtain ⟨h3, h4⟩ := run_exited cfg evs _ s2 rfl h2
  exact ⟨hp.2, rfl, h4, h3⟩


/-- Witness of C4, amended: `stop()` is called while the sender is in its
select; the select takes the cancellation case, and later the clock advances
and the receiver reads and queues a datagram. -/
theorem stats_frozen_after_selectDone_witness :
    ∃ s2, run defaultConfig (initClient 0) [.writeOk payloadA, .stop] = some stoppedInSelect ∧
      clientStep defaultConfig stoppedInSelect .selectDone
        = some { stoppedInSelect with pc := .exited } ∧
      run defaultConfig { stoppedInSelect with pc := .exited }
        [.tick 5, .read payloadA, .chanSend] = some s2 ∧
      s2.stats = stoppedInSelect.stats ∧ s2.pc = .exited := by
  cases h : run defaultConfig { stoppedInSelect with pc := .exited }
      [.tick 5, .read payloadA, .chanSend] with
  | none => exact absurd h (by decide)
  | some s2 =>
    exact ⟨s2, rfl, rfl, rfl,
      (stats_frozen_after_selectDone defaultConfig stoppedInSelect
        { stoppedInSelect with pc := .exited } s2 _ rfl h).2.2⟩

/-! ### C5: when a reply is counted -/

/-- Counterexample to C5 as stated: with `-i 10` the payload is sent at time 0,
so that the deadline is at 10 ms.  The sender does not get to run its select; at
12 ms the echo is read and queued, and the select, run then, takes it:
`countReceived` goes from 0 to 1 though no value was taken before the deadline. -/
theorem reply_after_deadline_counted_counterexample :
    (run minIntervalConfig (initClient 0)
        [.writeOk payloadA, .tick 12000000, .read payloadA, .chanSend]).map
        (fun s => (s.pc, s.deadline, s.now, s.stats.countReceived))
      = some (.inSelect, 10000000, 12000000, 0) ∧
    (run minIntervalConfig (initClient 0)
        [.writeOk payloadA, .tick 12000000, .read payloadA, .chanSend, .selectRecv]).map
        (fun s => (s.pc, s.deadline, s.now, s.stats.countReceived))
      = some (.waitMatch, 10000000, 12000000, 1) := by
  constructor <;> decide

/-- C5, amended: in every step of the client, `countReceived` grows by one if and
only if the step is the select taking from `recvCh` a value that is byte-equal to
the payload of the cycle, whatever the clock shows; the statistics then become
those of `recordReply`.  In every other step, among them the timeout of the
select and the taking of a value with different bytes, `countReceived`,
`rttSum`, `rttMin` and `rttMax` are unchanged. -/
theorem stats_updated_iff_matched (cfg : Config) (s : ClientState) (e : Event) (s' : ClientState)
    (h : clientStep cfg s e = some s') :
    (s'.stats.countReceived = s.stats.countReceived + 1 ↔ matchedReply s e) ∧
    (matchedReply s e → s'.stats = recordReply s.stats (since s.now s.startTs)) ∧
    (¬ matchedReply s e →
      s'.stats.countReceived = s.stats.countReceived ∧ s'.stats.rttSum = s.stats.rttSum ∧
      s'.stats.rttMin = s.stats.rttMin ∧ s'.stats.rttMax = s.stats.rttMax) ∧
    (e = .selectTimeout → ¬ matchedReply s e) ∧
    (e = .selectRecv → chanValue s ≠ some s.payload → ¬ matchedReply s e) := by
  have h45 : (e = .selectTimeout → ¬ matchedReply s e) ∧
      (e = .selectRecv → chanValue s ≠ some s.payload → ¬ matchedReply s e) :=
    ⟨fun he hm => by rw [he] at hm; exact Event.noConfusion hm.1, fun _ hne hm => hne hm.2.2⟩
  rcases clientStep_stats cfg s e s' h with ⟨hm, hs⟩ | ⟨hm, -, -, hs⟩ | ⟨hm, -, hs⟩
  · refine ⟨⟨fun _ => hm, fun _ => by rw [hs]; rfl⟩, fun _ => hs, fun hn => absurd hm hn, h45⟩
  · refine ⟨⟨fun hc => ?_, fun hm' => absurd hm' hm⟩, fun hm' => absurd hm' hm,
      fun _ => by rw [hs]; exact ⟨rfl, rfl, rfl, rfl⟩, h45⟩
    rw [hs] at hc
    simp at hc
  · refine ⟨⟨fun hc => ?_, fun hm' => absurd hm' hm⟩, fun hm' => absurd hm' hm,
      fun _ => by rw [hs]; exact ⟨rfl, rfl, rfl, rfl⟩, h45⟩
    rw [hs] at hc
    omega

/-- Witness of C5, amended: the select takes the queued echo of the payload. -/
theorem stats_updated_iff_matched_witness :
    ∃ s', run defaultConfig (initClient 0) [.writeOk payloadA, .read payloadA, .chanSend]
        = some replyQueued ∧
      clientStep defaultConfig replyQueued .selectRecv = some s' ∧
      s'.stats.countReceived = replyQueued.stats.countReceived + 1 := by
  cases h : clientStep defaultConfig replyQueued .selectRecv with
  | none => exact absurd h (by decide)
  | some s' =>
    exact ⟨s', rfl, rfl,
      (stats_updated_iff_matched defaultConfig replyQueued .selectRecv s' h).1.2 (by decide)⟩

/-! ### C6: cadence -/

/-- Every step preserves the invariant of the clock, the due time moving on by
one interval when the step begins a cycle. -/
theorem cadenceInv_step (cfg : Config) (T B : Int) (s : ClientState) (e : Event)
    (s' : ClientState)
    (hs : cadenceInv (intervalDuration cfg.pingInterval) T B s)
    (h : clientStep cfg s e = some s') :
    cadenceInv (intervalDuration cfg.pingInterval) T
      (B + (cyclesBegun [e] : Nat) * intervalDuration cfg.pingInterval) s' := by
  obtain ⟨h0, h1, h2, h3⟩ := hs
  have z : B + ((0 : Nat) : Int) * intervalDuration cfg.pingInterval = B := by simp
  have o : B + ((0 + 1 : Nat) : Int) * intervalDuration cfg.pingInterval
      = B + intervalDuration cfg.pingInterval := by simp
  cases e <;> simp only [clientStep] at h <;> simp only [cyclesBegun]
  case tick d =>
    cases h
    rw [z]
    refine ⟨?_, fun hp => ?_, fun hp => ?_, h3⟩
    · show T ≤ s.now + d; omega
    · have := h1 hp; show B ≤ s.now + d; omega
    · have := h2 hp
      show B - intervalDuration cfg.pingInterval ≤ s.now + d; omega
  case stop => cases h; rw [z]; exact ⟨h0, h1, h2, h3⟩
  case writeFail =>
    split_ifs at h with hp
    cases h; rw [z]; exact ⟨h0, h1, h2, h3⟩
  case writeOk p =>
    split_ifs at h with hp
    cases h; rw [o]
    have hb := h1 hp.1
    refine ⟨h0, fun hp' => by simp at hp', fun _ => ?_, fun _ => ⟨?_, rfl⟩⟩
    · show B + intervalDuration cfg.pingInterval - intervalDuration cfg.pingInterval ≤ s.now
      omega
    · show B + intervalDuration cfg.pingInterval - intervalDuration cfg.pingInterval ≤ s.now
      omega
  case selectDone =>
    split_ifs at h with hp
    cases h; rw [z]
    have hb := h2 (by simp [hp.1])
    exact ⟨h0, fun hp' => by simp at hp', fun _ => hb,
      fun hp' => by simp at hp'⟩
  case selectTimeout =>
    split_ifs at h with hp
    cases h; rw [z]
    obtain ⟨h4, h5⟩ := h3 (Or.inl hp.1)
    have := hp.2
    refine ⟨h0, fun _ => ?_, fun hp' => by simp at hp',
      fun hp' => by simp at hp'⟩
    show B ≤ s.now
    omega
  case selectRecv =>
    split_ifs at h with hp
    have hb := h2 (by simp [hp])
    have h4 := h3 (Or.inl hp)
    cases hv : chanValue s with
    | none => simp [hv] at h
    | some b =>
      simp only [hv] at h
      split_ifs at h with hb'
      · cases h; rw [z]
        exact ⟨h0, fun hp' => by simp at hp', fun _ => hb, fun _ => h4⟩
      · cases h; rw [z]
        exact ⟨h0, fun hp' => by simp at hp', fun _ => hb, fun _ => h4⟩
  case deadlineWake =>
    split_ifs at h with hp
    cases h; rw [z]
    obtain ⟨h4, h5⟩ := h3 (Or.inr hp.1)
    have := hp.2
    refine ⟨h0, fun _ => ?_, fun hp' => by simp at hp',
      fun hp' => by simp at hp'⟩
    show B ≤ s.now
    omega
  case read d =>
    split_ifs at h with hp
    cases h; rw [z]; exact ⟨h0, h1, h2, h3⟩
  case readErr =>
    split_ifs at h with hp hc
    · cases h; rw [z]; exact ⟨h0, h1, h2, h3⟩
    · cases h; rw [z]; exact ⟨h0, h1, h2, h3⟩
  case chanSend =>
    cases hr : s.rpc with
    | sending nr =>
      simp only [hr] at h
      split_ifs at h with hc
      cases h; rw [z]; exact ⟨h0, h1, h2, h3⟩
    | reading => simp [hr] at h
    | exited => simp [hr] at h

/-- Cycles begun in a run are those of its first event plus those of the rest. -/
theorem cyclesBegun_cons (e : Event) (es : List Event) :
    cyclesBegun (e :: es) = cyclesBegun [e] + cyclesBegun es := by
  cases e <;> simp [cyclesBegun]
  omega

/-- A run preserves the invariant of the clock, the due time moving on by one
interval per cycle begun. -/
theorem cadenceInv_run (cfg : Config) (T : Int) (evs : List Event) :
    ∀ (B : Int) (s s' : ClientState), cadenceInv (intervalDuration cfg.pingInterval) T B s →
      run cfg s evs = some s' →
      cadenceInv (intervalDuration cfg.pingInterval) T
        (B + (cyclesBegun evs : Nat) * intervalDuration cfg.pingInterval) s' := by
  induction evs with
  | nil =>
    intro B s s' hs h
    simp [run] at h
    subst h
    simpa [cyclesBegun] using hs
  | cons e es ih =>
    intro B s s' hs h
    simp only [run] at h
    cases hc : clientStep cfg s e with
    | none => simp [hc] at h
    | some s1 =>
      simp only [hc] at h
      have h1 := ih _ s1 s' (cadenceInv_step cfg T B s e s1 hs hc) h
      rw [cyclesBegun_cons]
      have e1 : B + ((cyclesBegun [e] + cyclesBegun es : Nat) : Int)
            * intervalDuration cfg.pingInterval
          = B + (cyclesBegun [e] : Nat) * intervalDuration cfg.pingInterval
            + (cyclesBegun es : Nat) * intervalDuration cfg.pingInterval := by
        push_cast; ring
      rw [e1]
      exact h1

/-- Without int64 overflow the duration of line 190 is the interval in nanoseconds. -/
theorem intervalDuration_of_range (i : Int) (h0 : 0 ≤ i) (h1 : 1000000 * i ≤ maxInt64) :
    intervalDuration i = 1000000 * i := by
  unfold intervalDuration
  apply wrapInt64_of_range
  · unfold minInt64; omega
  · exact h1

/-- Counterexample to C6 as stated: three cycles with a failed write are over
with the clock still at 0; and with `-i 9223372036855` the product of line 190
overflows int64, so that two cycles with a successful write and a timeout are
over at time 0. -/
theorem cadence_counterexample :
    ((run defaultConfig (initClient 0) [.writeFail, .writeFail, .writeFail]).map
        (fun s => (s.pc, s.now)) = some (.top, 0) ∧
      sendErrors [.writeFail, .writeFail, .writeFail] = 3) ∧
    (run ⟨9223372036855, 64⟩ (initClient 0)
        [.writeOk payloadA, .selectTimeout, .writeOk payloadB, .selectTimeout]).map
        (fun s => (s.pc, s.now,
          cyclesCompleted
            [.writeOk payloadA, .selectTimeout, .writeOk payloadB, .selectTimeout] s))
      = some (.top, 0, 2) := by
  refine ⟨⟨?_, ?_⟩, ?_⟩ <;> decide

/-- C6, amended: for an interval `I ≥ 0` milliseconds whose nanoseconds fit
int64, after any run the clock has advanced by at least `N * I` ms, `N` being the
number of cycles begun with a successful write that are over (every such cycle
when the sender is back at the head of its loop, every one but the last
otherwise), however each of them ended; and whatever step takes the sender from
inside a cycle back to the head of its loop, where the next cycle begins, it
happens no sooner than the start of the cycle plus `I` ms. -/
theorem cadence_after_successful_write (cfg : Config) (t0 : Int) (evs : List Event)
    (s : ClientState) (h : run cfg (initClient t0) evs = some s)
    (h0 : 0 ≤ cfg.pingInterval) (h1 : 1000000 * cfg.pingInterval ≤ maxInt64) :
    t0 + (cyclesCompleted evs s : Nat) * (1000000 * cfg.pingInterval) ≤ s.now ∧
    (s.pc = .top → t0 + (cyclesBegun evs : Nat) * (1000000 * cfg.pingInterval) ≤ s.now) ∧
    ∀ (e : Event) (s' : ClientState), clientStep cfg s e = some s' →
      s.pc ≠ .top → s'.pc = .top →
      s.startTs + 1000000 * cfg.pingInterval ≤ s'.now := by
  have hinv := cadenceInv_run cfg t0 evs t0 (initClient t0) s
    ⟨Int.le_refl t0, fun _ => Int.le_refl t0, fun hp => absurd rfl hp,
      fun hp => by rcases hp with hp | hp | hp <;> exact nomatch hp⟩ h
  rw [intervalDuration_of_range _ h0 h1] at hinv
  obtain ⟨i0, i1, i2, i3⟩ := hinv
  refine ⟨?_, i1, ?_⟩
  · unfold cyclesCompleted
    split_ifs with hp
    · exact i1 hp
    · have hb := i2 hp
      rcases Nat.eq_zero_or_pos (cyclesBegun evs) with hz | hpos
      · rw [hz]
        simpa using i0
      · have hc : ((cyclesBegun evs - 1 : Nat) : Int) = (cyclesBegun evs : Int) - 1 := by
          omega
        rw [hc]
        have : ((cyclesBegun evs : Int) - 1) * (1000000 * cfg.pingInterval)
            = (cyclesBegun evs : Nat) * (1000000 * cfg.pingInterval)
              - 1000000 * cfg.pingInterval := by ring
        rw [this]
        omega
  · intro e s' hstep hpc hpc'
    have hcyc : s.pc = .inSelect ∨ s.pc = .waitMismatch ∨ s.pc = .waitMatch →
        s.deadline ≤ s'.now → s.startTs + 1000000 * cfg.pingInterval ≤ s'.now := by
      intro hin hd
      obtain ⟨-, h5⟩ := i3 hin
      omega
    cases e <;> simp only [clientStep] at hstep
    case tick d => cases hstep; exact absurd hpc' hpc
    case stop => cases hstep; exact absurd hpc' hpc
    case writeFail =>
      split_ifs at hstep with hp
      exact absurd hp hpc
    case writeOk p =>
      split_ifs at hstep with hp
      exact absurd hp.1 hpc
    case selectDone =>
      split_ifs at hstep with hp
      cases hstep
      exact nomatch hpc'
    case selectTimeout =>
      split_ifs at hstep with hp
      cases hstep
      exact hcyc (Or.inl hp.1) hp.2
    case selectRecv =>
      split_ifs at hstep with hp
      cases hv : chanValue s with
      | none => simp [hv] at hstep
      | some b =>
        simp only [hv] at hstep
        split_ifs at hstep with hb
        · cases hstep; exact nomatch hpc'
        · cases hstep; exact nomatch hpc'
    case deadlineWake =>
      split_ifs at hstep with hp
      cases hstep
      exact hcyc (Or.inr hp.1) hp.2
    case read d =>
      split_ifs at hstep with hp
      cases hstep; exact absurd hpc' hpc
    case readErr =>
      split_ifs at hstep with hp hc
      · cases hstep; exact absurd hpc' hpc
      · cases hstep; exact absurd hpc' hpc
    case chanSend =>
      cases hr : s.rpc with
      | sending nr =>
        simp only [hr] at hstep
        split_ifs at hstep with hc
        cases hstep; exact absurd hpc' hpc
      | reading => simp [hr] at hstep
      | exited => simp [hr] at hstep

/-- Witness of C6, amended: a cycle that times out and a cycle with a match,
at the default interval of 1000 ms; both are over no sooner than 2000 ms after
the start. -/
theorem cadence_after_successful_write_witness :
    run defaultConfig (initClient 0) timeoutThenMatch = some afterTimeoutThenMatch ∧
    cyclesCompleted timeoutThenMatch afterTimeoutThenMatch = 2 ∧
    (0 : Int) + ((cyclesCompleted timeoutThenMatch afterTimeoutThenMatch : Nat) : Int)
        * (1000000 * defaultConfig.pingInterval) ≤ afterTimeoutThenMatch.now :=
  ⟨rfl, by decide,
    (cadence_after_successful_write defaultConfig 0 timeoutThenMatch afterTimeoutThenMatch
      rfl (by decide) (by decide)).1⟩

/-! ### C7: round-trip statistics -/

/-- A sum of non-negative integers is non-negative. -/
theorem sum_nonneg_of_forall (es : List Int) (h : ∀ e ∈ es, 0 ≤ e) : 0 ≤ es.sum := by
  induction es with
  | nil => simp
  | cons a as ih =>
    have h1 := h a (List.mem_cons_self a as)
    have h2 := ih (fun e he => h e (List.mem_cons_of_mem a he))
    simp only [List.sum_cons]
    omega

/-- A lower bound of the elements, times their number, is at most their sum. -/
theorem length_mul_le_sum (m : Int) (es : List Int) (h : ∀ e ∈ es, m ≤ e) :
    m * es.length ≤ es.sum := by
  induction es with
  | nil => simp
  | cons a as ih =>
    have h1 := h a (List.mem_cons_self a as)
    have h2 := ih (fun e he => h e (List.mem_cons_of_mem a he))
    simp only [List.sum_cons, List.length_cons]
    push_cast
    linarith

/-- The sum of the elements is at most an upper bound of them times their number. -/
theorem sum_le_length_mul (m : Int) (es : List Int) (h : ∀ e ∈ es, e ≤ m) :
    es.sum ≤ m * es.length := by
  induction es with
  | nil => simp
  | cons a as ih =>
    have h1 := h a (List.mem_cons_self a as)
    have h2 := ih (fun e he => h e (List.mem_cons_of_mem a he))
    simp only [List.sum_cons, List.length_cons]
    push_cast
    linarith

/-- Effect of a sequence of matched updates on arbitrary statistics, when the sum of
the elapsed times does not overflow. -/
theorem foldl_recordReply (es : List Int) :
    ∀ st : Stats, (∀ e ∈ es, 0 ≤ e) → 0 ≤ st.rttSum → st.rttSum + es.sum ≤ maxInt64 →
      (es.foldl recordReply st).countTotal = st.countTotal ∧
      (es.foldl recordReply st).countReceived = st.countReceived + es.length ∧
      (es.foldl recordReply st).rttSum = st.rttSum + es.sum ∧
      (∀ e ∈ es, (es.foldl recordReply st).rttMin ≤ e ∧ e ≤ (es.foldl recordReply st).rttMax) ∧
      (es.foldl recordReply st).rttMin ≤ st.rttMin ∧
      st.rttMax ≤ (es.foldl recordReply st).rttMax ∧
      ((es.foldl recordReply st).rttMin = st.rttMin ∨ (es.foldl recordReply st).rttMin ∈ es) ∧
      ((es.foldl recordReply st).rttMax = st.rttMax ∨ (es.foldl recordReply st).rttMax ∈ es) := by
  induction es with
  | nil =>
    intro st _ _ _
    simp
  | cons a as ih =>
    intro st hnn h0 hsum
    have ha := hnn a (List.mem_cons_self a as)
    have hnn' : ∀ e ∈ as, 0 ≤ e := fun e he => hnn e (List.mem_cons_of_mem a he)
    have hs' := sum_nonneg_of_forall as hnn'
    simp only [List.sum_cons] at hsum
    have hw : wrapInt64 (st.rttSum + a) = st.rttSum + a :=
      wrapInt64_of_range _ (by unfold minInt64; omega) (by omega)
    have hsum1 : (recordReply st a).rttSum = st.rttSum + a := hw
    obtain ⟨i1, i2, i3, i4, i5, i6, i7, i8⟩ :=
      ih (recordReply st a) hnn' (by rw [hsum1]; omega) (by rw [hsum1]; omega)
    have hmin : (recordReply st a).rttMin ≤ st.rttMin ∧ (recordReply st a).rttMin ≤ a ∧
        ((recordReply st a).rttMin = st.rttMin ∨ (recordReply st a).rttMin = a) := by
      simp only [recordReply]
      split_ifs with hc
      · exact ⟨by omega, le_refl _, Or.inr rfl⟩
      · exact ⟨le_refl _, by omega, Or.inl rfl⟩
    have hmax : st.rttMax ≤ (recordReply st a).rttMax ∧ a ≤ (recordReply st a).rttMax ∧
        ((recordReply st a).rttMax = st.rttMax ∨ (recordReply st a).rttMax = a) := by
      simp only [recordReply]
      split_ifs with hc
      · exact ⟨by omega, le_refl _, Or.inr rfl⟩
      · exact ⟨le_refl _, by omega, Or.inl rfl⟩
    simp only [List.foldl_cons, List.sum_cons, List.length_cons]
    refine ⟨i1, ?_, ?_, ?_, ?_, ?_, ?_, ?_⟩
    · rw [i2]; simp only [recordReply]; omega
    · rw [i3, hsum1]; omega
    · intro e he
      rcases List.mem_cons.mp he with rfl | he
      · exact ⟨by omega, by omega⟩
      · exact i4 e he
    · omega
    · omega
    · rcases i7 with h | h
      · rcases hmin.2.2 with h' | h'
        · exact Or.inl (h.trans h')
        · exact Or.inr (List.mem_cons.mpr (Or.inl (h.trans h')))
      · exact Or.inr (List.mem_cons_of_mem a h)
    · rcases i8 with h | h
      · rcases hmax.2.2 with h' | h'
        · exact Or.inl (h.trans h')
        · exact Or.inr (List.mem_cons.mpr (Or.inl (h.trans h')))
      · exact Or.inr (List.mem_cons_of_mem a h)

/-- C7: starting from `rttSum = 0`, `rttMin = MaxInt64`, `rttMax = 0`, after any
sequence of matched updates with non-negative elapsed times whose sum does not
overflow int64, `countReceived` is their number and `rttSum` their sum, and when
`countReceived > 0`: `rttMin ≤ e ≤ rttMax` for every recorded `e`, and
`rttMin ≤ rttSum / countReceived ≤ rttMax` as rationals, all three non-negative. -/
theorem rtt_statistics (es : List Int) (hnn : ∀ e ∈ es, 0 ≤ e) (hsum : es.sum ≤ maxInt64) :
    (recordAll es).countReceived = es.length ∧
    (recordAll es).rttSum = es.sum ∧
    (0 < (recordAll es).countReceived →
      (∀ e ∈ es, (recordAll es).rttMin ≤ e ∧ e ≤ (recordAll es).rttMax) ∧
      0 ≤ (recordAll es).rttMin ∧ 0 ≤ (recordAll es).rttMax ∧
      (0 : ℚ) ≤ ((recordAll es).rttSum : ℚ) / ((recordAll es).countReceived : ℚ) ∧
      ((recordAll es).rttMin : ℚ) ≤ ((recordAll es).rttSum : ℚ) / ((recordAll es).countReceived : ℚ) ∧
      ((recordAll es).rttSum : ℚ) / ((recordAll es).countReceived : ℚ) ≤ ((recordAll es).rttMax : ℚ)) := by
  obtain ⟨-, i2, i3, i4, -, i6, i7, -⟩ :=
    foldl_recordReply es initStats hnn (le_refl 0) (by simpa [initStats] using hsum)
  have i2' : (recordAll es).countReceived = es.length := by
    have : initStats.countReceived = 0 := rfl
    unfold recordAll; omega
  have i3' : (recordAll es).rttSum = es.sum := by
    have : initStats.rttSum = 0 := rfl
    unfold recordAll; omega
  refine ⟨i2', i3', fun hpos => ?_⟩
  have i4' : ∀ e ∈ es, (recordAll es).rttMin ≤ e ∧ e ≤ (recordAll es).rttMax := i4
  have hmin0 : 0 ≤ (recordAll es).rttMin := by
    rcases i7 with h | h
    · have : (recordAll es).rttMin = maxInt64 := h
      rw [this]; unfold maxInt64; omega
    · exact hnn _ h
  have hmax0 : 0 ≤ (recordAll es).rttMax := i6
  have hlo := length_mul_le_sum (recordAll es).rttMin es (fun e he => (i4' e he).1)
  have hhi := sum_le_length_mul (recordAll es).rttMax es (fun e he => (i4' e he).2)
  have hn : (0 : ℚ) < ((recordAll es).countReceived : ℚ) := by exact_mod_cast hpos
  have hs0 : 0 ≤ es.sum := sum_nonneg_of_forall es hnn
  refine ⟨i4', hmin0, hmax0, ?_, ?_, ?_⟩
  · apply div_nonneg
    · rw [i3']; exact_mod_cast hs0
    · exact le_of_lt hn
  · rw [le_div_iff₀ hn, i3', i2']
    exact_mod_cast hlo
  · rw [div_le_iff₀ hn, i3', i2']
    exact_mod_cast hhi

/-- Witness of C7: three replies of 3 ms, 1 ms and 2 ms. -/
theorem rtt_statistics_witness :
    (∀ e ∈ [3000000, 1000000, 2000000], (0 : Int) ≤ e) ∧
    ([3000000, 1000000, 2000000] : List Int).sum ≤ maxInt64 ∧
    (recordAll [3000000, 1000000, 2000000]).countReceived = 3 ∧
    (recordAll [3000000, 1000000, 2000000]).rttSum = 6000000 ∧
    (recordAll [3000000, 1000000, 2000000]).rttMin = 1000000 ∧
    (recordAll [3000000, 1000000, 2000000]).rttMax = 3000000 ∧
    ((recordAll [3000000, 1000000, 2000000]).rttMin : ℚ)
      ≤ ((recordAll [3000000, 1000000, 2000000]).rttSum : ℚ)
          / ((recordAll [3000000, 1000000, 2000000]).countReceived : ℚ) :=
  ⟨by decide, by decide, by decide, by decide, by decide, by decide,
    ((rtt_statistics [3000000, 1000000, 2000000] (by decide) (by decide)).2.2 (by decide)).2.2.2.2.1⟩


/-! ### C3 and C9: `main` -/

/-- What `main` does with at least two positional arguments. -/
theorem main_two_args (f : Flags) (host p : String) (rest : List String) :
    main f (host :: p :: rest) =
      match atoi p with
      | none => .fatalPortParse p
      | some port =>
        if port < 1 ∨ port > 65535 then .fatalPortRange port
        else if f.serverMode then .server host port
        else if f.pingInterval < 10 then .fatalInterval f.pingInterval
        else if f.pingPktSize < 64 ∨ f.pingPktSize > 1500 then .fatalSize f.pingPktSize
        else .client host port := by
  simp only [main]
  cases hp : atoi p with
  | none => simp
  | some port =>
    by_cases hr : port < 1 ∨ port > 65535
    · simp [hr]
    · simp [hr]

/-- What `main` does with one positional argument. -/
theorem main_one_arg (f : Flags) (host : String) :
    main f [host] =
      if f.serverMode then .server host 5555
      else if f.pingInterval < 10 then .fatalInterval f.pingInterval
      else if f.pingPktSize < 64 ∨ f.pingPktSize > 1500 then .fatalSize f.pingPktSize
      else .client host 5555 := by
  simp [main]

/-- What `main` does without positional arguments. -/
theorem main_no_arg (f : Flags) :
    main f [] = if f.serverMode then .server "0.0.0.0" 5555 else .usage := by
  simp [main]

/-- C9: with a second positional argument `p`, `main` gets past the validation
of the port if and only if `p` parses as a decimal integer between 1 and 65535;
otherwise it ends in `log.Fatalf` with a message starting `Invalid port value:`,
without entering `server()` or `client()`.  The port used is the parsed one, and
with fewer than two positional arguments it is 5555. -/
theorem port_validation (f : Flags) (host p : String) (rest : List String) :
    ((main f (host :: p :: rest)).isPortFatal = false ↔
      ∃ n : Int, atoi p = some n ∧ 1 ≤ n ∧ n ≤ 65535) ∧
    ((main f (host :: p :: rest)).isPortFatal = true →
      (main f (host :: p :: rest)).entersNetwork = false ∧
      ∃ tail : String,
        (main f (host :: p :: rest)).fatalMessage = some ("Invalid port value:" ++ tail)) ∧
    (∀ n : Int, (main f (host :: p :: rest)).port? = some n → atoi p = some n) ∧
    (main f [host]).isPortFatal = false ∧ (main f []).isPortFatal = false ∧
    (∀ n : Int, (main f [host]).port? = some n ∨ (main f []).port? = some n → n = 5555) := by
  refine ⟨?_, ?_, ?_, ?_, ?_, ?_⟩
  · rw [main_two_args]
    cases hp : atoi p with
    | none => simp [Outcome.isPortFatal]
    | some port =>
      by_cases hr : port < 1 ∨ port > 65535
      · simp only [hr, if_true, Outcome.isPortFatal]
        constructor
        · intro h; cases h
        · rintro ⟨n, hn, h1, h2⟩
          cases hn
          omega
      · simp only [hr, if_false]
        constructor
        · intro _
          exact ⟨port, rfl, by omega, by omega⟩
        · intro _
          split_ifs <;> rfl
  · rw [main_two_args]
    cases hp : atoi p with
    | none =>
      intro _
      exact ⟨rfl, p, rfl⟩
    | some port =>
      by_cases hr : port < 1 ∨ port > 65535
      · simp only [hr, if_true]
        intro _
        refine ⟨rfl, toString port ++ ", expected integer between 1 and 65535", ?_⟩
        simp only [Outcome.fatalMessage, String.append_assoc]
      · simp only [hr, if_false]
        intro h
        split_ifs at h <;> cases h
  · rw [main_two_args]
    intro n
    cases hp : atoi p with
    | none => intro h; cases h
    | some port =>
      by_cases hr : port < 1 ∨ port > 65535
      · simp only [hr, if_true]
        intro h; cases h
      · simp only [hr, if_false]
        intro h
        split_ifs at h <;> simp only [Outcome.port?] at h <;> first | exact h | cases h
  · rw [main_one_arg]
    split_ifs <;> rfl
  · rw [main_no_arg]
    split_ifs <;> rfl
  · intro n h
    rw [main_one_arg, main_no_arg] at h
    rcases h with h | h
    · split_ifs at h <;> simp only [Outcome.port?] at h <;> first | cases h; rfl | cases h
    · split_ifs at h <;> simp only [Outcome.port?] at h <;> first | cases h; rfl | cases h

/-- Witness of C9: the port argument `70000`. -/
theorem port_validation_witness :
    main defaultFlags ["127.0.0.1", "70000"] = .fatalPortRange 70000 ∧
    (main defaultFlags ["127.0.0.1", "70000"]).fatalMessage
      = some "Invalid port value:70000, expected integer between 1 and 65535" ∧
    (main defaultFlags ["127.0.0.1", "70000"]).entersNetwork = false :=
  ⟨by decide, by decide,
    ((port_validation defaultFlags "127.0.0.1" "70000" []).2.1 (by decide)).1⟩

/-- Counterexample to C3 as stated: in server mode `-i 5 -l 10` is not
rejected, `server()` is entered; and in client mode without arguments `main`
prints the usage text and returns, which is no fatal error. -/
theorem interval_size_validation_counterexample :
    main { pingInterval := 5, pingPktSize := 10, serverMode := true, traceMode := false }
        ["0.0.0.0", "5555"] = .server "0.0.0.0" 5555 ∧
    (main { pingInterval := 5, pingPktSize := 10, serverMode := true, traceMode := false }
        ["0.0.0.0", "5555"]).isFatal = false ∧
    main { pingInterval := 5, pingPktSize := 10, serverMode := false, traceMode := false } []
      = .usage := by
  refine ⟨?_, ?_, ?_⟩ <;> decide

/-- C3, amended: once the port is accepted, in client mode with a host argument
`main` ends in `log.Fatalf` without entering `client()` when the interval is
below 10 (line 89) or the size outside 64..1500 (line 91), and enters `client()`
when both are in range; in server mode neither flag is checked and `server()`
is entered; in client mode without arguments the usage text is printed. -/
theorem interval_size_validation (f : Flags) (args : List String)
    (hport : (main f args).isPortFatal = false) :
    (f.serverMode = true → (main f args).isFatal = false ∧ ∃ h p, main f args = .server h p) ∧
    (f.serverMode = false → args = [] → main f args = .usage) ∧
    (f.serverMode = false → args ≠ [] →
      (f.pingInterval < 10 → main f args = .fatalInterval f.pingInterval) ∧
      (10 ≤ f.pingInterval → (f.pingPktSize < 64 ∨ f.pingPktSize > 1500) →
        main f args = .fatalSize f.pingPktSize) ∧
      ((f.pingInterval < 10 ∨ f.pingPktSize < 64 ∨ f.pingPktSize > 1500) →
        (main f args).isFatal = true ∧ (main f args).entersNetwork = false) ∧
      (10 ≤ f.pingInterval → 64 ≤ f.pingPktSize → f.pingPktSize ≤ 1500 →
        (main f args).isFatal = false ∧ ∃ h p, main f args = .client h p)) := by
  have key : ∃ h p, main f args =
      if f.serverMode then .server h p
      else if args.length ≤ 0 then .usage
      else if f.pingInterval < 10 then .fatalInterval f.pingInterval
      else if f.pingPktSize < 64 ∨ f.pingPktSize > 1500 then .fatalSize f.pingPktSize
      else .client h p := by
    match args, hport with
    | [], _ => exact ⟨"0.0.0.0", 5555, by simp [main]⟩
    | [host], _ => exact ⟨host, 5555, by simp [main]⟩
    | host :: p :: rest, hport =>
      rw [main_two_args] at hport ⊢
      cases hp : atoi p with
      | none => rw [hp] at hport; cases hport
      | some port =>
        rw [hp] at hport
        by_cases hr : port < 1 ∨ port > 65535
        · simp only [hr, if_true] at hport; cases hport
        · refine ⟨host, port, ?_⟩
          simp [hr]
  obtain ⟨h, p, hm⟩ := key
  refine ⟨fun hs => ?_, fun hs ha => ?_, fun hs ha => ?_⟩
  · rw [hm]; simp only [hs, if_true]
    exact ⟨rfl, h, p, rfl⟩
  · rw [hm]; simp [hs, ha]
  · have hlen : ¬ args.length ≤ 0 := by
      cases args with
      | nil => exact absurd rfl ha
      | cons a as => simp
    rw [hm]
    simp only [hs, hlen, if_false, Bool.false_eq_true]
    refine ⟨fun hi => by simp [hi], fun hi hz => ?_, fun hbad => ?_, fun hi h1 h2 => ?_⟩
    · have : ¬ f.pingInterval < 10 := by omega
      simp [this, hz]
    · by_cases hi : f.pingInterval < 10
      · simp only [hi, if_true]; exact ⟨rfl, rfl⟩
      · have hz : f.pingPktSize < 64 ∨ f.pingPktSize > 1500 := by omega
        simp only [hi, hz, if_true, if_false]; exact ⟨rfl, rfl⟩
    · have : ¬ f.pingInterval < 10 := by omega
      have hz : ¬ (f.pingPktSize < 64 ∨ f.pingPktSize > 1500) := by omega
      simp only [this, hz, if_false]
      exact ⟨rfl, h, p, rfl⟩

/-- Witness of C3, amended: `-i 5` in client mode. -/
theorem interval_size_validation_witness :
    (main { pingInterval := 5, pingPktSize := 64, serverMode := false, traceMode := false }
        ["127.0.0.1", "5555"]).isPortFatal = false ∧
    main { pingInterval := 5, pingPktSize := 64, serverMode := false, traceMode := false }
        ["127.0.0.1", "5555"] = .fatalInterval 5 :=
  ⟨by decide,
    ((interval_size_validation
        { pingInterval := 5, pingPktSize := 64, serverMode := false, traceMode := false }
        ["127.0.0.1", "5555"] (by decide)).2.2 rfl (by decide)).1 (by decide)⟩

/-! ### C10: the receiver hands a shared buffer over -/

/-- C10, the code at a failing input: the echo of `payloadA` is read and queued;
a receive from `recvCh` would now yield it, and the select would record a match.
A second datagram is read before the sender runs: the queued value now shows
the bytes of that datagram, and the select finds a mismatch. -/
theorem recvCh_value_overwritten :
    (run defaultConfig (initClient 0)
        [.writeOk payloadA, .read payloadA, .chanSend]).bind chanValue
      = some payloadA ∧
    (run defaultConfig (initClient 0)
        [.writeOk payloadA, .read payloadA, .chanSend,
         .read payloadB]).bind chanValue
      = some payloadB ∧
    (run defaultConfig (initClient 0)
        [.writeOk payloadA, .read payloadA, .chanSend,
         .selectRecv]).map (fun s => (s.pc, s.stats.countReceived))
      = some (.waitMatch, 1) ∧
    (run defaultConfig (initClient 0)
        [.writeOk payloadA, .read payloadA, .chanSend,
         .read payloadB, .selectRecv]).map (fun s => (s.pc, s.stats.countReceived))
      = some (.waitMismatch, 0) := by
  refine ⟨?_, ?_, ?_, ?_⟩ <;> decide

/-! ### C8: the report -/

/-- With fuel at least `n`, the result brackets `n` between two powers of two. -/
theorem floorLog2Fuel_spec (fuel : Nat) : ∀ n : Nat, 0 < n → n ≤ fuel →
    2 ^ floorLog2Fuel fuel n ≤ n ∧ n < 2 ^ (floorLog2Fuel fuel n + 1) := by
  induction fuel with
  | zero => intro n h0 h1; omega
  | succ f ih =>
    intro n h0 h1
    simp only [floorLog2Fuel]
    split_ifs with h2
    · obtain ⟨a, b⟩ := ih (n / 2) (by omega) (by omega)
      rw [pow_succ] at b ⊢
      rw [pow_succ]
      constructor <;> omega
    · simp; omega

/-- For `n` positive, `floorLog2 n` is the position of its leading binary digit. -/
theorem floorLog2_spec (n : Nat) (h : 0 < n) :
    2 ^ floorLog2 n ≤ n ∧ n < 2 ^ (floorLog2 n + 1) :=
  floorLog2Fuel_spec n n h (le_refl n)

/-- The rounded quotient is within one half of the exact one, and not below its floor. -/
theorem roundHalfEven_spec (num den : Nat) (h : 0 < den) :
    2 * (roundHalfEven num den * den) ≤ 2 * num + den ∧
    2 * num ≤ 2 * (roundHalfEven num den * den) + den ∧
    num / den ≤ roundHalfEven num den := by
  have h1 := Nat.div_add_mod num den
  have h2 := Nat.mod_lt num h
  have h3 : den * (num / den) = num / den * den := Nat.mul_comm _ _
  unfold roundHalfEven
  split_ifs with hc
  · have h4 : (num / den + 1) * den = num / den * den + den := by ring
    rw [h4]
    rcases hc with hc | hc <;> refine ⟨?_, ?_, ?_⟩ <;> omega
  · refine ⟨?_, ?_, ?_⟩ <;> omega

/-- The parts of `scaleDiv n d e` are the numerator and the positive denominator of
`n / (d * 2^e)`. -/
theorem scaleDiv_spec (n d : Nat) (e : Int) (hd : 0 < d) :
    0 < (scaleDiv n d e).2 ∧
    ((scaleDiv n d e).1 : ℚ) / ((scaleDiv n d e).2 : ℚ) * (2 : ℚ) ^ e = (n : ℚ) / (d : ℚ) := by
  have hd' : (d : ℚ) ≠ 0 := by exact_mod_cast (Nat.pos_iff_ne_zero.mp hd)
  unfold scaleDiv
  split_ifs with he
  · refine ⟨hd, ?_⟩
    have hk : (((-e).toNat : Int)) = -e := Int.toNat_of_nonneg (by omega)
    have : ((2 : ℚ) ^ (-e).toNat) * (2 : ℚ) ^ e = 1 := by
      rw [← zpow_natCast, hk, ← zpow_add₀ (by norm_num : (2 : ℚ) ≠ 0)]
      simp
    push_cast
    field_simp
    rw [mul_assoc, this, mul_one]
  · refine ⟨Nat.mul_pos hd (Nat.pow_pos (by norm_num)), ?_⟩
    have hk : ((e.toNat : Int)) = e := Int.toNat_of_nonneg (by omega)
    have h2 : ((2 : ℚ) ^ e.toNat) = (2 : ℚ) ^ e := by
      rw [← zpow_natCast, hk]
    have h3 : (2 : ℚ) ^ e ≠ 0 := zpow_ne_zero _ (by norm_num)
    push_cast
    rw [h2]
    field_simp
    ring

/-- The rounded quotient is within one half of the exact one, as rationals. -/
theorem roundHalfEven_rat (num den : Nat) (h : 0 < den) :
    |(roundHalfEven num den : ℚ) - (num : ℚ) / (den : ℚ)| ≤ 1 / 2 := by
  obtain ⟨h1, h2, -⟩ := roundHalfEven_spec num den h
  have hd : (0 : ℚ) < (den : ℚ) := by exact_mod_cast h
  have h1' : (2 : ℚ) * ((roundHalfEven num den : ℚ) * den) ≤ 2 * num + den := by exact_mod_cast h1
  have h2' : (2 : ℚ) * num ≤ 2 * ((roundHalfEven num den : ℚ) * den) + den := by exact_mod_cast h2
  have hx : (num : ℚ) / (den : ℚ) * den = num := div_mul_cancel₀ _ (ne_of_gt hd)
  rw [abs_le]
  constructor
  · by_contra hc
    push_neg at hc
    have := mul_pos (sub_pos.mpr hc) hd
    nlinarith
  · by_contra hc
    push_neg at hc
    have := mul_pos (sub_pos.mpr hc) hd
    nlinarith

/-- Rounding at an exponent that leaves at least 52 bits: the relative error is at
most `2^-53`. -/
theorem round_scaled (n d : Nat) (e : Int) (hd : 0 < d)
    (H : (2 : ℚ) ^ (52 : ℕ) * (2 : ℚ) ^ e ≤ (n : ℚ) / (d : ℚ)) :
    0 < roundHalfEven (scaleDiv n d e).1 (scaleDiv n d e).2 ∧
    |(roundHalfEven (scaleDiv n d e).1 (scaleDiv n d e).2 : ℚ) * (2 : ℚ) ^ e - (n : ℚ) / (d : ℚ)|
      ≤ (n : ℚ) / (d : ℚ) / 2 ^ (53 : ℕ) := by
  obtain ⟨hden, hval⟩ := scaleDiv_spec n d e hd
  have hr := roundHalfEven_rat (scaleDiv n d e).1 (scaleDiv n d e).2 hden
  have hp : (0 : ℚ) < (2 : ℚ) ^ e := zpow_pos (by norm_num) e
  set m : ℚ := (roundHalfEven (scaleDiv n d e).1 (scaleDiv n d e).2 : ℚ) with hm
  set r : ℚ := ((scaleDiv n d e).1 : ℚ) / ((scaleDiv n d e).2 : ℚ) with hrdef
  set t : ℚ := (2 : ℚ) ^ e with ht
  rw [abs_le] at hr
  have hrt : r * t = (n : ℚ) / (d : ℚ) := hval
  have e52 : ((2 : ℚ) ^ (52 : ℕ)) = 4503599627370496 := by norm_num
  have e53 : ((2 : ℚ) ^ (53 : ℕ)) = 9007199254740992 := by norm_num
  rw [e52] at H
  rw [e53]
  have hr52 : (4503599627370496 : ℚ) ≤ r := by
    by_contra hc
    push_neg at hc
    have : r * t < 4503599627370496 * t := mul_lt_mul_of_pos_right hc hp
    linarith
  constructor
  · have : (0 : ℚ) < m := by linarith [hr.1]
    rw [hm] at this
    exact_mod_cast this
  · rw [← hrt, abs_le]
    constructor
    · have : (m - r) * t ≥ -(1/2) * t := by nlinarith [hr.1]
      have : r * t / 9007199254740992 ≥ 1 / 2 * t := by
        rw [ge_iff_le, le_div_iff₀ (by norm_num)]
        nlinarith
      linarith
    · have : (m - r) * t ≤ (1/2) * t := by nlinarith [hr.2]
      have : r * t / 9007199254740992 ≥ 1 / 2 * t := by
        rw [ge_iff_le, le_div_iff₀ (by norm_num)]
        nlinarith
      linarith

/-- The float64 nearest to `n / d` has a positive significand and a relative error
of at most `2^-53`. -/
theorem roundRatio_spec (n d : Nat) (hn : 0 < n) (hd : 0 < d) :
    0 < (roundRatio n d).1 ∧
    |((roundRatio n d).1 : ℚ) * (2 : ℚ) ^ (roundRatio n d).2 - (n : ℚ) / (d : ℚ)|
      ≤ (n : ℚ) / (d : ℚ) / 2 ^ (53 : ℕ) := by
  obtain ⟨na, -⟩ := floorLog2_spec n hn
  obtain ⟨-, db⟩ := floorLog2_spec d hd
  have hdq : (0 : ℚ) < (d : ℚ) := by exact_mod_cast hd
  have two : (2 : ℚ) ≠ 0 := by norm_num
  -- the first guess of the exponent leaves at least 52 bits
  have H0 : (2 : ℚ) ^ (52 : ℕ) * (2 : ℚ) ^ ((floorLog2 n : Int) - (floorLog2 d : Int) - 53)
      ≤ (n : ℚ) / (d : ℚ) := by
    rw [le_div_iff₀ hdq]
    have na' : ((2 : ℚ) ^ (floorLog2 n)) ≤ (n : ℚ) := by exact_mod_cast na
    have db' : (d : ℚ) ≤ (2 : ℚ) ^ (floorLog2 d + 1) := by exact_mod_cast (le_of_lt db)
    have hpos : (0 : ℚ) < (2 : ℚ) ^ (52 : ℕ)
        * (2 : ℚ) ^ ((floorLog2 n : Int) - (floorLog2 d : Int) - 53) :=
      mul_pos (by norm_num) (zpow_pos (by norm_num) _)
    calc (2 : ℚ) ^ (52 : ℕ) * (2 : ℚ) ^ ((floorLog2 n : Int) - (floorLog2 d : Int) - 53) * d
        ≤ (2 : ℚ) ^ (52 : ℕ) * (2 : ℚ) ^ ((floorLog2 n : Int) - (floorLog2 d : Int) - 53)
            * (2 : ℚ) ^ (floorLog2 d + 1) := mul_le_mul_of_nonneg_left db' (le_of_lt hpos)
      _ = (2 : ℚ) ^ (floorLog2 n) := by
          rw [← zpow_natCast (2 : ℚ) 52, ← zpow_natCast (2 : ℚ) (floorLog2 d + 1),
            ← zpow_natCast (2 : ℚ) (floorLog2 n), ← zpow_add₀ two, ← zpow_add₀ two]
          congr 1
          push_cast
          ring
      _ ≤ (n : ℚ) := na'
  unfold roundRatio
  simp only []
  split_ifs with hq
  · apply round_scaled n d _ hd
    obtain ⟨hden, hval⟩ := scaleDiv_spec n d ((floorLog2 n : Int) - (floorLog2 d : Int) - 53) hd
    have hq' : 2 ^ 53 * (scaleDiv n d ((floorLog2 n : Int) - (floorLog2 d : Int) - 53)).2
        ≤ (scaleDiv n d ((floorLog2 n : Int) - (floorLog2 d : Int) - 53)).1 :=
      (Nat.le_div_iff_mul_le hden).mp hq
    have hq'' : (2 : ℚ) ^ (53 : ℕ)
        * ((scaleDiv n d ((floorLog2 n : Int) - (floorLog2 d : Int) - 53)).2 : ℚ)
        ≤ ((scaleDiv n d ((floorLog2 n : Int) - (floorLog2 d : Int) - 53)).1 : ℚ) := by
      exact_mod_cast hq'
    have hdenq : (0 : ℚ)
        < ((scaleDiv n d ((floorLog2 n : Int) - (floorLog2 d : Int) - 53)).2 : ℚ) := by
      exact_mod_cast hden
    have hge : (2 : ℚ) ^ (53 : ℕ)
        ≤ ((scaleDiv n d ((floorLog2 n : Int) - (floorLog2 d : Int) - 53)).1 : ℚ)
          / ((scaleDiv n d ((floorLog2 n : Int) - (floorLog2 d : Int) - 53)).2 : ℚ) := by
      rw [le_div_iff₀ hdenq]; exact hq''
    have hp : (0 : ℚ) < (2 : ℚ) ^ ((floorLog2 n : Int) - (floorLog2 d : Int) - 53) :=
      zpow_pos (by norm_num) _
    rw [← hval]
    have hsplit : (2 : ℚ) ^ ((floorLog2 n : Int) - (floorLog2 d : Int) - 53 + 1)
        = (2 : ℚ) ^ ((floorLog2 n : Int) - (floorLog2 d : Int) - 53) * 2 := by
      rw [zpow_add₀ two]; simp
    rw [hsplit]
    have : (2 : ℚ) ^ (53 : ℕ) = (2 : ℚ) ^ (52 : ℕ) * 2 := by norm_num
    rw [this] at hge
    nlinarith [mul_le_mul_of_nonneg_right hge (le_of_lt hp)]
  · exact round_scaled n d _ hd H0

/-- A relative error of at most `2^-53`, as a pair of bounds. -/
theorem within_of_abs (xh x : ℚ) (h : |xh - x| ≤ x / 2 ^ (53 : ℕ)) :
    within (1 - unitRoundoff) (1 + unitRoundoff) xh x := by
  have e53 : ((2 : ℚ) ^ (53 : ℕ)) = 9007199254740992 := by norm_num
  rw [e53, abs_le] at h
  unfold within unitRoundoff
  constructor <;> linarith [h.1, h.2]

/-- Bounds of an estimate of an estimate. -/
theorem within_trans {lo hi l2 h2 xh yh x : ℚ} (hl2 : 0 ≤ l2)
    (hh2 : 0 ≤ h2) (h1 : within lo hi xh x) (hr : within l2 h2 yh xh) :
    within (l2 * lo) (h2 * hi) yh x := by
  unfold within at *
  constructor
  · calc l2 * lo * x = l2 * (lo * x) := by ring
      _ ≤ l2 * xh := mul_le_mul_of_nonneg_left h1.1 hl2
      _ ≤ yh := hr.1
  · calc yh ≤ h2 * xh := hr.2
      _ ≤ h2 * (hi * x) := mul_le_mul_of_nonneg_left h1.2 hh2
      _ = h2 * hi * x := by ring

/-- Bounds of a product of estimates. -/
theorem within_mul {l1 h1 l2 h2 xh x yh y : ℚ} (hx : 0 ≤ x) (hy : 0 ≤ y)
    (hl1 : 0 ≤ l1) (hl2 : 0 ≤ l2)
    (a : within l1 h1 xh x) (b : within l2 h2 yh y) :
    within (l1 * l2) (h1 * h2) (xh * yh) (x * y) := by
  unfold within at *
  have hxh : 0 ≤ xh := le_trans (mul_nonneg hl1 hx) a.1
  have hyh : 0 ≤ yh := le_trans (mul_nonneg hl2 hy) b.1
  constructor
  · calc l1 * l2 * (x * y) = (l1 * x) * (l2 * y) := by ring
      _ ≤ xh * yh := mul_le_mul a.1 b.1 (mul_nonneg hl2 hy) hxh
  · calc xh * yh ≤ (h1 * x) * (h2 * y) := mul_le_mul a.2 b.2 hyh (le_trans hxh a.2)
      _ = h1 * h2 * (x * y) := by ring

/-- Bounds of a quotient of estimates. -/
theorem within_div {l1 h1 l2 h2 xh x yh y : ℚ} (hx : 0 ≤ x) (hy : 0 < y)
    (hl1 : 0 ≤ l1) (hl2 : 0 < l2) (hh2 : 0 < h2)
    (a : within l1 h1 xh x) (b : within l2 h2 yh y) :
    within (l1 / h2) (h1 / l2) (xh / yh) (x / y) := by
  unfold within at *
  have hxh : 0 ≤ xh := le_trans (mul_nonneg hl1 hx) a.1
  have hyh : 0 < yh := lt_of_lt_of_le (mul_pos hl2 hy) b.1
  have hh1x : 0 ≤ h1 * x := le_trans hxh a.2
  constructor
  · rw [le_div_iff₀ hyh]
    calc l1 / h2 * (x / y) * yh ≤ l1 / h2 * (x / y) * (h2 * y) :=
          mul_le_mul_of_nonneg_left b.2
            (mul_nonneg (div_nonneg hl1 (le_of_lt hh2)) (div_nonneg hx (le_of_lt hy)))
      _ = l1 * x := by field_simp
      _ ≤ xh := a.1
  · rw [div_le_iff₀ hyh]
    calc xh ≤ h1 * x := a.2
      _ = h1 / l2 * (x / y) * (l2 * y) := by field_simp
      _ ≤ h1 / l2 * (x / y) * yh := by
          apply mul_le_mul_of_nonneg_left b.1
          have : h1 / l2 * (x / y) = (h1 * x) / (l2 * y) := by field_simp
          rw [this]
          exact div_nonneg hh1x (le_of_lt (mul_pos hl2 hy))

/-- The conversion of a positive integer is positive and has a relative error of at
most `2^-53`. -/
theorem ofNat_spec (n : Nat) (hn : 0 < n) :
    (F64.ofNat n).isPos ∧
    within (1 - unitRoundoff) (1 + unitRoundoff) (F64.ofNat n).toRat (n : ℚ) := by
  obtain ⟨h1, h2⟩ := roundRatio_spec n 1 hn (by norm_num)
  have hne : n ≠ 0 := Nat.pos_iff_ne_zero.mp hn
  simp only [F64.ofNat, hne, if_false]
  refine ⟨⟨rfl, h1⟩, ?_⟩
  apply within_of_abs
  simpa [F64.toRat] using h2

/-- The quotient of two positive float64 is positive and has a relative error of at
most `2^-53`. -/
theorem div_spec (x y : F64) (hx : x.isPos) (hy : y.isPos) :
    (F64.div x y).isPos ∧
    within (1 - unitRoundoff) (1 + unitRoundoff) (F64.div x y).toRat (x.toRat / y.toRat) := by
  match x, y, hx, hy with
  | .fin s1 m1 e1, .fin s2 m2 e2, ⟨hs1, hm1⟩, ⟨hs2, hm2⟩ =>
    subst hs1; subst hs2
    obtain ⟨h1, h2⟩ := roundRatio_spec m1 m2 hm1 hm2
    have n1 : m1 ≠ 0 := Nat.pos_iff_ne_zero.mp hm1
    have n2 : m2 ≠ 0 := Nat.pos_iff_ne_zero.mp hm2
    simp only [F64.div, n1, n2, if_false]
    refine ⟨⟨rfl, h1⟩, ?_⟩
    apply within_of_abs
    have two : (2 : ℚ) ≠ 0 := by norm_num
    have hp : (0 : ℚ) < (2 : ℚ) ^ (e1 - e2) := zpow_pos (by norm_num) _
    have hval : ((m1 : ℚ) * (2 : ℚ) ^ e1) / ((m2 : ℚ) * (2 : ℚ) ^ e2)
        = (m1 : ℚ) / (m2 : ℚ) * (2 : ℚ) ^ (e1 - e2) := by
      rw [zpow_sub₀ two]
      have : (2 : ℚ) ^ e2 ≠ 0 := zpow_ne_zero _ two
      have : (m2 : ℚ) ≠ 0 := by exact_mod_cast n2
      field_simp
    have hres : ((roundRatio m1 m2).1 : ℚ) * (2 : ℚ) ^ ((roundRatio m1 m2).2 + e1 - e2)
        = ((roundRatio m1 m2).1 : ℚ) * (2 : ℚ) ^ (roundRatio m1 m2).2 * (2 : ℚ) ^ (e1 - e2) := by
      rw [mul_assoc, ← zpow_add₀ two]
      congr 2
      ring
    simp only [F64.toRat, Bool.xor_false, Bool.false_eq_true, if_false, one_mul]
    rw [hval, hres, ← sub_mul, abs_mul, abs_of_pos hp]
    have hrhs : (m1 : ℚ) / (m2 : ℚ) * (2 : ℚ) ^ (e1 - e2) / 2 ^ (53 : ℕ)
        = (m1 : ℚ) / (m2 : ℚ) / 2 ^ (53 : ℕ) * (2 : ℚ) ^ (e1 - e2) := by ring
    rw [hrhs]
    exact mul_le_mul_of_nonneg_right h2 (le_of_lt hp)

/-- The product of two positive float64 is positive and has a relative error of at
most `2^-53`. -/
theorem mul_spec (x y : F64) (hx : x.isPos) (hy : y.isPos) :
    (F64.mul x y).isPos ∧
    within (1 - unitRoundoff) (1 + unitRoundoff) (F64.mul x y).toRat (x.toRat * y.toRat) := by
  match x, y, hx, hy with
  | .fin s1 m1 e1, .fin s2 m2 e2, ⟨hs1, hm1⟩, ⟨hs2, hm2⟩ =>
    subst hs1; subst hs2
    have hm : 0 < m1 * m2 := Nat.mul_pos hm1 hm2
    obtain ⟨h1, h2⟩ := roundRatio_spec (m1 * m2) 1 hm (by norm_num)
    have n12 : m1 * m2 ≠ 0 := Nat.pos_iff_ne_zero.mp hm
    simp only [F64.mul, n12, if_false]
    refine ⟨⟨rfl, h1⟩, ?_⟩
    apply within_of_abs
    have two : (2 : ℚ) ≠ 0 := by norm_num
    have hp : (0 : ℚ) < (2 : ℚ) ^ (e1 + e2) := zpow_pos (by norm_num) _
    have hval : ((m1 : ℚ) * (2 : ℚ) ^ e1) * ((m2 : ℚ) * (2 : ℚ) ^ e2)
        = ((m1 * m2 : ℕ) : ℚ) / ((1 : ℕ) : ℚ) * (2 : ℚ) ^ (e1 + e2) := by
      rw [zpow_add₀ two]
      push_cast
      ring
    have hres : ((roundRatio (m1 * m2) 1).1 : ℚ)
          * (2 : ℚ) ^ ((roundRatio (m1 * m2) 1).2 + e1 + e2)
        = ((roundRatio (m1 * m2) 1).1 : ℚ) * (2 : ℚ) ^ (roundRatio (m1 * m2) 1).2
          * (2 : ℚ) ^ (e1 + e2) := by
      rw [mul_assoc, ← zpow_add₀ two]
      congr 2
      ring
    simp only [F64.toRat, Bool.xor_false, Bool.false_eq_true, if_false, one_mul]
    rw [hval, hres, ← sub_mul, abs_mul, abs_of_pos hp]
    have hrhs : ((m1 * m2 : ℕ) : ℚ) / ((1 : ℕ) : ℚ) * (2 : ℚ) ^ (e1 + e2) / 2 ^ (53 : ℕ)
        = ((m1 * m2 : ℕ) : ℚ) / ((1 : ℕ) : ℚ) / 2 ^ (53 : ℕ) * (2 : ℚ) ^ (e1 + e2) := by ring
    rw [hrhs]
    exact mul_le_mul_of_nonneg_right h2 (le_of_lt hp)

/-- The hundredths printed are within one half of a hundredth of the value. -/
theorem hundredths_spec (m : Nat) (e : Int) :
    |((hundredths m e : ℕ) : ℚ) - 100 * ((m : ℚ) * (2 : ℚ) ^ e)| ≤ 1 / 2 := by
  obtain ⟨hden, hval⟩ := scaleDiv_spec (100 * m) 1 (-e) (by norm_num)
  have hr := roundHalfEven_rat (scaleDiv (100 * m) 1 (-e)).1 (scaleDiv (100 * m) 1 (-e)).2 hden
  have two : (2 : ℚ) ≠ 0 := by norm_num
  have hp : (2 : ℚ) ^ (-e) * (2 : ℚ) ^ e = 1 := by
    rw [← zpow_add₀ two]; simp
  have : ((scaleDiv (100 * m) 1 (-e)).1 : ℚ) / ((scaleDiv (100 * m) 1 (-e)).2 : ℚ)
      = 100 * ((m : ℚ) * (2 : ℚ) ^ e) := by
    have h1 := congrArg (fun t => t * (2 : ℚ) ^ e) hval
    simp only [mul_assoc, hp, mul_one] at h1
    rw [h1]
    push_cast
    ring
  unfold hundredths
  rw [← this]
  exact hr

/-- A positive float64 is finite, with sign bit clear and a positive significand. -/
theorem isPos_fin (x : F64) (h : x.isPos) : ∃ m e, x = .fin false m e ∧ 0 < m := by
  match x, h with
  | .fin s m e, ⟨hs, hm⟩ => exact ⟨m, e, by rw [hs], hm⟩

/-- The loss percentage is finite and non-negative, and the hundredths `%.2f` prints
for it are within `1/2 + 10^-11` of the exact `10000 * (sent - received) / sent`. -/
theorem lossPercent_accuracy (st : Stats) (hsent : 0 < st.countTotal)
    (hle : st.countReceived ≤ st.countTotal) (h64 : st.countTotal < 18446744073709551616) :
    ∃ m e, lossPercent st = .fin false m e ∧
      |((hundredths m e : ℕ) : ℚ)
          - 10000 * ((st.countTotal - st.countReceived : ℕ) : ℚ) / (st.countTotal : ℚ)|
        ≤ 1 / 2 + 1 / 100000000000 := by
  have hsub := sub64_of_le st.countTotal st.countReceived hle h64
  obtain ⟨pS, wS⟩ := ofNat_spec st.countTotal hsent
  obtain ⟨pC, wC⟩ := ofNat_spec 100 (by norm_num)
  have htq : (0 : ℚ) < (st.countTotal : ℚ) := by exact_mod_cast hsent
  unfold lossPercent
  rw [hsub]
  rcases Nat.eq_zero_or_pos (st.countTotal - st.countReceived) with h0 | hpos
  · -- nothing lost: the quotient and the product are zero
    obtain ⟨mS, eS, hS, hmS⟩ := isPos_fin _ pS
    obtain ⟨mC, eC, hC, hmC⟩ := isPos_fin _ pC
    refine ⟨0, 0, ?_, ?_⟩
    · rw [h0, hS, hC]
      have : mS ≠ 0 := Nat.pos_iff_ne_zero.mp hmS
      simp [F64.ofNat, F64.div, F64.mul, this]
    · rw [h0]
      have : hundredths 0 0 = 0 := by decide
      rw [this]
      norm_num
  · obtain ⟨pA, wA⟩ := ofNat_spec (st.countTotal - st.countReceived) hpos
    obtain ⟨pQ, wQ⟩ := div_spec _ _ pA pS
    obtain ⟨pP, wP⟩ := mul_spec _ _ pQ pC
    obtain ⟨m, e, hP, -⟩ := isPos_fin _ pP
    refine ⟨m, e, hP, ?_⟩
    have haq : (0 : ℚ) ≤ ((st.countTotal - st.countReceived : ℕ) : ℚ) := Nat.cast_nonneg _
    have hale : ((st.countTotal - st.countReceived : ℕ) : ℚ) ≤ (st.countTotal : ℚ) := by
      exact_mod_cast Nat.sub_le _ _
    have hu0 : (0 : ℚ) ≤ 1 - unitRoundoff := by unfold unitRoundoff; norm_num
    have hu1 : (0 : ℚ) < 1 - unitRoundoff := by unfold unitRoundoff; norm_num
    have hu2 : (0 : ℚ) < 1 + unitRoundoff := by unfold unitRoundoff; norm_num
    have wAS := within_div haq htq hu0 hu1 hu2 wA wS
    have hx : (0 : ℚ) ≤ ((st.countTotal - st.countReceived : ℕ) : ℚ) / (st.countTotal : ℚ) :=
      div_nonneg haq (le_of_lt htq)
    have hx1 : ((st.countTotal - st.countReceived : ℕ) : ℚ) / (st.countTotal : ℚ) ≤ 1 := by
      rw [div_le_one htq]; exact hale
    have wQ' := within_trans hu0 (le_of_lt hu2) wAS wQ
    have wQC := within_mul hx (by norm_num : (0 : ℚ) ≤ ((100 : ℕ) : ℚ))
      (mul_nonneg hu0 (div_nonneg hu0 (le_of_lt hu2))) hu0 wQ' wC
    have wP' := within_trans hu0 (le_of_lt hu2) wQC wP
    rw [hP] at wP'
    simp only [F64.toRat, Bool.false_eq_true, if_false, one_mul] at wP'
    have hh := hundredths_spec m e
    set x : ℚ := ((st.countTotal - st.countReceived : ℕ) : ℚ) / (st.countTotal : ℚ) with hxdef
    set p : ℚ := (m : ℚ) * (2 : ℚ) ^ e with hpdef
    have hlo : (1 - 6 * unitRoundoff)
        ≤ (1 - unitRoundoff) * ((1 - unitRoundoff) * ((1 - unitRoundoff) / (1 + unitRoundoff))
            * (1 - unitRoundoff)) := by
      unfold unitRoundoff; norm_num
    have hhi : (1 + unitRoundoff) * ((1 + unitRoundoff) * ((1 + unitRoundoff) / (1 - unitRoundoff))
            * (1 + unitRoundoff)) ≤ (1 + 6 * unitRoundoff) := by
      unfold unitRoundoff; norm_num
    have hx100 : (0 : ℚ) ≤ x * ((100 : ℕ) : ℚ) := mul_nonneg hx (by norm_num)
    obtain ⟨w1, w2⟩ := wP'
    have b1 : (1 - 6 * unitRoundoff) * (x * ((100 : ℕ) : ℚ)) ≤ p :=
      le_trans (mul_le_mul_of_nonneg_right hlo hx100) w1
    have b2 : p ≤ (1 + 6 * unitRoundoff) * (x * ((100 : ℕ) : ℚ)) :=
      le_trans w2 (mul_le_mul_of_nonneg_right hhi hx100)
    have e1 : 10000 * ((st.countTotal - st.countReceived : ℕ) : ℚ) / (st.countTotal : ℚ)
        = 10000 * x := by rw [hxdef]; ring
    rw [e1]
    rw [abs_le] at hh ⊢
    unfold unitRoundoff at b1 b2
    push_cast at b1 b2
    constructor <;> nlinarith [hh.1, hh.2, b1, b2, hx, hx1]

set_option maxRecDepth 100000 in
/-- C8: for all final statistics with `sent > 0` the first message of the report
is `<sent> packets transmitted, <received> received, <loss>% packet loss`, where
`<loss>` is the float64 `(sent - received) / sent * 100` printed with two
decimals (for `received ≤ sent < 2^64` it is within `0.005 + 10^-13` of the exact
percentage), and the message `rtt min/avg/max = ...` follows if and only if
`received > 0`.  With 3 sent and 2 received the first message shows `33.33%` and
an rtt message follows; with 5 sent and none received there is no rtt message. -/
theorem report_format (st : Stats) (hsent : 0 < st.countTotal) :
    (report st).head? = some (toString st.countTotal ++ " packets transmitted, "
      ++ toString st.countReceived ++ " received, "
      ++ (lossPercent st).format2 ++ "% packet loss") ∧
    (st.countReceived ≤ st.countTotal → st.countTotal < 18446744073709551616 →
      ∃ h : Nat,
        (lossPercent st).format2
          = toString (h / 100) ++ "." ++ toString (h % 100 / 10) ++ toString (h % 10) ∧
        |(h : ℚ) / 100 - 100 * ((st.countTotal - st.countReceived : ℕ) : ℚ) / (st.countTotal : ℚ)|
          ≤ 5 / 1000 + 1 / 10000000000000) ∧
    (0 < st.countReceived → report st = [lossLine st, rttLine st]) ∧
    (st.countReceived = 0 → report st = [lossLine st]) ∧
    ((report st).length = 2 ↔ 0 < st.countReceived) ∧
    (∃ tail : String, rttLine st = "rtt min/avg/max = " ++ tail) ∧
    report threeSentTwoReceived
      = ["3 packets transmitted, 2 received, 33.33% packet loss",
         "rtt min/avg/max = 1.00/1.50/2.00"] ∧
    report fiveSentNoneReceived
      = ["5 packets transmitted, 0 received, 100.00% packet loss"] := by
  refine ⟨?_, ?_, ?_, ?_, ?_, ?_, by decide, by decide⟩
  · unfold report
    split_ifs <;> rfl
  · intro hle h64
    obtain ⟨m, e, hm, hacc⟩ := lossPercent_accuracy st hsent hle h64
    refine ⟨hundredths m e, ?_, ?_⟩
    · rw [hm]
      simp [F64.format2]
    · have e1 : 10000 * ((st.countTotal - st.countReceived : ℕ) : ℚ) / (st.countTotal : ℚ)
          = 10000 * (((st.countTotal - st.countReceived : ℕ) : ℚ) / (st.countTotal : ℚ)) := by
        ring
      have e2 : 100 * ((st.countTotal - st.countReceived : ℕ) : ℚ) / (st.countTotal : ℚ)
          = 100 * (((st.countTotal - st.countReceived : ℕ) : ℚ) / (st.countTotal : ℚ)) := by
        ring
      rw [e1] at hacc
      rw [e2]
      rw [abs_le] at hacc ⊢
      constructor <;> linarith [hacc.1, hacc.2]
  · intro h
    simp [report, h]
  · intro h
    simp [report, h]
  · unfold report
    split_ifs with h
    · simp [h]
    · simp [h]
  · refine ⟨(millis st.rttMin).format2 ++ "/"
      ++ (F64.div (F64.div (F64.div (F64.ofInt st.rttSum) (F64.ofNat st.countReceived))
            (F64.ofNat 1000)) (F64.ofNat 1000)).format2
      ++ "/" ++ (millis st.rttMax).format2, ?_⟩
    simp only [rttLine, String.append_assoc]

set_option maxRecDepth 100000 in
/-- Witness of C8: three packets sent, two replies. -/
theorem report_format_witness :
    (report threeSentTwoReceived).head?
      = some "3 packets transmitted, 2 received, 33.33% packet loss" ∧
    (report threeSentTwoReceived).length = 2 :=
  ⟨(report_format threeSentTwoReceived (by decide)).1.trans (by decide),
    (report_format threeSentTwoReceived (by decide)).2.2.2.2.1.mpr (by decide)⟩

end Udpping
